import Mathlib

/-!
# Verification of the ebook2audiobook text normalization and segmentation pipeline

Shallow embedding of the text pipeline of `lib/text/` (processor.py,
sentence_splitter.py, normalizer.py, number_converter.py, date_converter.py,
math_converter.py).  Python strings are modelled as `List Char`; Python's
`int` as `Int`/`Nat`; functions that may raise or return `None` produce
`Option` values.

The repository's data modules `lib/lang`, `lib/models` and `lib/conf`
(language registry, punctuation sets, phoneme maps, clock templates, the
`TTS_SML` marker table) are not part of the source tree given under `src/`;
where a definition needs their contents it is modelled from the spec and
marked `Modelled from the spec:` in its doc comment.  The two `TTS_SML`
marker values themselves are fixed by `src/lib/text/processor.py` lines
245 and 250, which compare against the literals `'‡break‡'` and `'‡pause‡'`.
-/

namespace Ebook

/-- Python strings, modelled as lists of characters. -/
abbrev Str := List Char

/-- Coerce a Lean string literal to the `Str` model. -/
def str (s : String) : Str := s.data

/-- Python's `str.isspace` / regex `\s` on a single character (whitespace). -/
def pyIsSpace (c : Char) : Bool := c.isWhitespace

/-- Python's `ch.isalnum()` (and the regex classes `[\p{L}\p{N}]`, `[^\W_]`),
restricted to the ASCII range used throughout the development.  Unicode
alphanumerics outside ASCII are not needed by any claim. -/
def pyIsAlnum (c : Char) : Bool := c.isAlphanum

/-- Python's `str.strip()` (drop leading and trailing whitespace). -/
def pyStrip (s : Str) : Str :=
  ((s.dropWhile pyIsSpace).reverse.dropWhile pyIsSpace).reverse

/-- Python's `str.rstrip()` (drop trailing whitespace). -/
def pyRStrip (s : Str) : Str :=
  (s.reverse.dropWhile pyIsSpace).reverse

/-! ## Roman numerals — `number_converter.py`, `roman2number` (lines 15–49) -/

/-- The `roman_values` dict of `roman2number` (number_converter.py lines 25–28). -/
def roman_values : List (Char × Int) :=
  [('I', 1), ('V', 5), ('X', 10), ('L', 50), ('C', 100), ('D', 500), ('M', 1000)]

/-- `roman_values.get(char)` — `None` when the character is not a roman digit. -/
def romanLookup (c : Char) : Option Int :=
  (roman_values.find? (fun p => p.1 == c)).map Prod.snd

/-- The loop of `roman2number` (lines 35–45): the input here is the already
reversed, upper-cased character sequence; `total` and `prev` mirror the
`total` and `prev_value` variables. -/
def roman2numberGo : Str → Int → Int → Option Int
  | [], total, _ => some total
  | c :: rest, total, prev =>
    match romanLookup c with
    | none => none
    | some value =>
      if value < prev then roman2numberGo rest (total - value) value
      else roman2numberGo rest (total + value) value

/-- `roman2number(text)` from number_converter.py lines 15–49.  The function
upper-cases the whole input and scans it right to left with subtractive
decoding; its return type is `int | None` (per its own signature and
docstring) — it returns `None` as soon as any character of the input is not
one of I,V,X,L,C,D,M, and never returns text. -/
def roman2number (text : Str) : Option Int :=
  roman2numberGo ((text.map Char.toUpper).reverse) 0 0


/-! ## Control markers and splitting primitives — `sentence_splitter.py` -/

/-- The `TTS_SML['break']` marker literal, as fixed by processor.py line 245. -/
def BRK : Str := str "‡break‡"

/-- The `TTS_SML['pause']` marker literal, as fixed by processor.py line 250. -/
def PSE : Str := str "‡pause‡"

/-- `s in [TTS_SML['break'], TTS_SML['pause']]` (equivalently
`s in sml_tokens`, the tuple of the two marker values). -/
def isMarker (s : Str) : Bool := s == BRK || s == PSE

/-- The scanner behind `smlSplit`.  The `fuel` argument only bounds the
recursion depth (it is initialised to the input length, which always
suffices since every recursive call shortens the string); the `0` arm is
never reached on that initialisation. -/
def smlSplitGo : Nat → Str → List Str
  | _, [] => [[]]
  | 0, s => [s]
  | fuel + 1, c :: cs =>
    if BRK.isPrefixOf (c :: cs) then
      [] :: BRK :: smlSplitGo fuel ((c :: cs).drop BRK.length)
    else if PSE.isPrefixOf (c :: cs) then
      [] :: PSE :: smlSplitGo fuel ((c :: cs).drop PSE.length)
    else
      match smlSplitGo fuel cs with
      | [] => [[c]]
      | seg :: rest => (c :: seg) :: rest

/-- Stage 1 of `get_sentences` (line 187):
`re.split(rf"({'|'.join(map(re.escape, sml_tokens))})", text)` — split on the
two marker literals with a capturing group, so the markers are kept as their
own list items; the segments before, between and after matches are kept
verbatim, including empty ones, exactly as `re.split` produces them. -/
def smlSplit (s : Str) : List Str := smlSplitGo s.length s

/-- Python's `s.split(sep)` for a single-character separator (keeps empty
fields, as `str.split` with an explicit separator does). -/
def pySplitChar (sep : Char) : Str → List Str
  | [] => [[]]
  | c :: cs =>
    if c = sep then [] :: pySplitChar sep cs
    else
      match pySplitChar sep cs with
      | [] => [[c]]
      | seg :: rest => (c :: seg) :: rest

/-- The `(?=\s|$)` lookahead of the splitting patterns: the next character is
whitespace, or the string ends here. -/
def lookaheadSpaceOrEnd : Str → Bool
  | [] => true
  | c :: _ => pyIsSpace c

/-- `split_inclusive(text, pattern)` of sentence_splitter.py lines 72–92,
specialised to the two patterns built at lines 191–192 and 211–212: a match
is the shortest run of text ending in a splitting character whose next
position satisfies `(?=\s|$)`.  Each matched piece is appended `.strip()`ped
unconditionally; the leftover tail is appended stripped only when non-empty.
Modelled from the spec for the absent `lib.lang` data: the punctuation sets
contain single characters and `punctuation_list_set` (the extra trailing-run
fragment interpolated into the hard pattern at line 192) is modelled as
empty, the spec describing stage 2 simply as a trailing-delimiter-inclusive
split on the hard punctuation set.  `acc` holds the characters scanned since
the previous match end, in reverse. -/
def splitInclusiveGo (puncts : List Char) (acc : Str) : Str → List Str
  | [] =>
    (match pyStrip acc.reverse with
     | [] => []
     | t => [t])
  | c :: cs =>
    if puncts.contains c && lookaheadSpaceOrEnd cs then
      pyStrip (acc.reverse ++ [c]) :: splitInclusiveGo puncts [] cs
    else
      splitInclusiveGo puncts (c :: acc) cs

/-- `split_inclusive` entry point. -/
def splitInclusive (puncts : List Char) (s : Str) : List Str :=
  splitInclusiveGo puncts [] s

/-- `re.sub(r'[^\p{L}\p{N} ]+', '', s)` — keep only letters, digits, spaces. -/
def cleanNonAlnum (s : Str) : Str := s.filter (fun c => pyIsAlnum c || c == ' ')

/-- `any(ch.isalnum() for ch in s)`. -/
def hasAlnum (s : Str) : Bool := s.any pyIsAlnum

/-! ## `get_sentences` stages (sentence_splitter.py lines 180–300) -/

/-- Stage 1 with its filter (lines 187–188): keep items whose `strip()` is
truthy, and always keep the markers. -/
def smlStage (text : Str) : List Str :=
  (smlSplit text).filter (fun s => !(pyStrip s).isEmpty || isMarker s)

/-- Stage 2, hard-punctuation split (lines 190–208): markers and items within
the budget pass through; oversized items are split inclusively, each part
stripped and kept when non-empty; when the split produces nothing, the item
itself is stripped and kept when non-empty. -/
def hardStage (maxc : Nat) (hard : List Char) (l : List Str) : List Str :=
  l.flatMap (fun s =>
    if isMarker s || s.length ≤ maxc then [s]
    else
      match splitInclusive hard s with
      | [] => (match pyStrip s with
               | [] => []
               | t => [t])
      | parts => parts.filterMap (fun p =>
          match pyStrip p with
          | [] => none
          | t => some t))

/-- `any(buffer.rstrip().endswith(p) for p in punctuation_split_soft_set)`
for single-character punctuation (line 230). -/
def endsWithSoft (soft : List Char) (buffer : Str) : Bool :=
  match (pyRStrip buffer).getLast? with
  | none => false
  | some c => soft.contains c

/-- `max((buffer.rfind(p) for p in punctuation_split_soft_set if p in buffer),
default=-1)` (line 232): the greatest index of a soft-punctuation character
in the buffer, `none` standing for the `-1` default. -/
def lastSoftIdx (soft : List Char) (buffer : Str) : Option Nat :=
  (buffer.reverse.findIdx? (fun c => soft.contains c)).map
    (fun j => buffer.length - 1 - j)

/-- The backtracking buffer loop of stage 3 (lines 221–243).  Returns the
units flushed during the loop together with the final buffer.  `predicted`
mirrors line 224; the three flush shapes mirror lines 229–243. -/
def softAssemble (maxc : Nat) (soft : List Char) (buffer : Str) :
    List Str → List Str × Str
  | [] => ([], buffer)
  | part :: rest =>
    let predicted := buffer.length + (if buffer.isEmpty then 0 else 1) + part.length
    if predicted ≤ maxc then
      softAssemble maxc soft (if buffer.isEmpty then part else pyStrip (buffer ++ ' ' :: part)) rest
    else
      if !buffer.isEmpty && !endsWithSoft soft buffer then
        match lastSoftIdx soft buffer with
        | some i =>
          let emitted := pyStrip (buffer.take (i + 1))
          let leftover := pyStrip (buffer.drop (i + 1))
          let buffer' := if leftover.isEmpty then part else leftover ++ ' ' :: part
          let out := softAssemble maxc soft buffer' rest
          (emitted :: out.1, out.2)
        | none =>
          let out := softAssemble maxc soft part rest
          (pyStrip buffer :: out.1, out.2)
      else
        let out := softAssemble maxc soft part rest
        (pyStrip buffer :: out.1, out.2)

/-- Stage 3, soft-punctuation split with backtracking (lines 210–255).
Markers and in-budget items pass through; otherwise the item is split on soft
punctuation and reassembled by `softAssemble`, the final buffer being kept
when it still holds alphanumeric content (lines 244–247); an item whose
split is empty is kept stripped when it has alphanumeric content (lines
248–251).  The trailing `else` of lines 252–255 is unreachable
(`len(s) > max_chars` always holds there) and has no counterpart. -/
def softStage (maxc : Nat) (soft : List Char) (l : List Str) : List Str :=
  l.flatMap (fun s =>
    if isMarker s || s.length ≤ maxc then [s]
    else
      match (splitInclusive soft s).filter (fun p => !p.isEmpty) with
      | [] =>
        if hasAlnum (cleanNonAlnum s) then [pyStrip s] else []
      | parts =>
        let out := softAssemble maxc soft [] parts
        out.1 ++
          (if !out.2.isEmpty && hasAlnum (cleanNonAlnum out.2)
           then [pyStrip out.2] else []))

/-- The word-accumulation loop of the final alphabetic stage (lines 282–294):
append a word while it fits, otherwise flush the stripped line when non-empty
and restart from the overflowing word; the last line is kept when it still
has alphanumeric content. -/
def assembleWords (maxc : Nat) (tp : Str) : List Str → List Str
  | [] =>
    if !tp.isEmpty && hasAlnum (pyStrip (cleanNonAlnum tp)) then [tp] else []
  | w :: ws =>
    if tp.length + 1 + w.length ≤ maxc then
      assembleWords maxc (tp ++ ' ' :: w) ws
    else
      let tp' := pyStrip tp
      (if tp'.isEmpty then [] else [tp']) ++ assembleWords maxc w ws

/-- Stage 5 for space-delimited (alphabetic) languages (lines 274–295):
markers and in-budget items pass through; oversized items are re-assembled at
word granularity by `assembleWords`. -/
def wordStage (maxc : Nat) (l : List Str) : List Str :=
  l.flatMap (fun s =>
    if isMarker s || s.length ≤ maxc then [s]
    else
      match pySplitChar ' ' s with
      | [] => []
      | w :: ws => assembleWords maxc w ws)

/-- `segment_ideogramms` (lines 94–141): split on the marker tokens, keep
markers atomic, delegate every other non-empty segment to the external
per-language tokenizer `tok` (jieba / sudachi / soynlp / pythainlp — external
collaborators of this repository), keeping tokens whose `strip()` is truthy. -/
def segment_ideogramms (tok : Str → List Str) (s : Str) : List Str :=
  (smlSplit s).flatMap (fun seg =>
    if seg.isEmpty then []
    else if isMarker seg then [seg]
    else (tok seg).filter (fun t => !(pyStrip t).isEmpty))

/-- `join_ideogramms` (lines 143–178): accumulate tokens into a buffer,
emitting the buffer before a marker token and whenever appending the next
token would exceed `max_chars`; markers are emitted alone; the trailing
buffer is flushed at the end. -/
def join_ideogramms (maxc : Nat) (buffer : Str) : List Str → List Str
  | [] => if buffer.isEmpty then [] else [buffer]
  | tok :: rest =>
    if isMarker (pyStrip tok) then
      (if buffer.isEmpty then [] else [buffer]) ++ tok :: join_ideogramms maxc [] rest
    else if !buffer.isEmpty && maxc < buffer.length + tok.length then
      buffer :: join_ideogramms maxc tok rest
    else
      join_ideogramms maxc (buffer ++ tok) rest

/-- The ideogrammatic language list of line 258. -/
def IDEO_LANGS : List Str :=
  [str "zho", str "jpn", str "kor", str "tha", str "lao", str "mya", str "khm"]

/-- Modelled from the spec: the `punctuation_split_hard_set` of the absent
`lib.lang` module — punctuation that always terminates a unit. -/
def punctuation_split_hard_set : List Char := ['.', '!', '?']

/-- Modelled from the spec: the `punctuation_split_soft_set` of the absent
`lib.lang` module — punctuation used only when a unit exceeds the budget. -/
def punctuation_split_soft_set : List Char := [',', ';', ':']

/-- Modelled from the spec: the absent `lib.lang.language_mapping` registry,
restricted to the `max_chars` field consumed by this pipeline.  The spec
fixes only that every registered profile has `max_chars > 0`; the English
value is modelled as 250 and the ideogrammatic ones as 150.  A lookup of an
unregistered language raises `KeyError` in the source, hence `none` here. -/
def language_mapping_max_chars (lang : Str) : Option Nat :=
  if lang = str "eng" then some 250
  else if lang ∈ IDEO_LANGS then some 150
  else none

/-- Stages 1–3 and 5 of `get_sentences` composed, for a given effective
budget and punctuation sets (the alphabetic path). -/
def get_sentences_core (maxc : Nat) (hard soft : List Char) (text : Str) : List Str :=
  wordStage maxc (softStage maxc soft (hardStage maxc hard (smlStage text)))

/-- `get_sentences(text, lang, tts_engine)` (sentence_splitter.py lines
21–300).  `tok` is the external per-language tokenizer used by stage 4; the
effective budget is `max_chars - 4` (line 181); a failed registry lookup
raises `KeyError`, which the enclosing `try` converts to `None`
(lines 297–300). -/
def get_sentences (tok : Str → List Str) (text : Str) (lang : Str) : Option (List Str) :=
  match language_mapping_max_chars lang with
  | none => none
  | some mc =>
    let maxc := mc - 4
    let l3 := softStage maxc punctuation_split_soft_set
      (hardStage maxc punctuation_split_hard_set (smlStage text))
    if lang ∈ IDEO_LANGS then
      let result := l3.flatMap (fun s =>
        if isMarker s then [s]
        else (segment_ideogramms tok s).filter (fun t => !(pyStrip t).isEmpty))
      some (join_ideogramms maxc [] result)
    else
      some (wordStage maxc l3)


/-! ## The general number formatter — `number_converter.py`, `set_formatted_number`
(lines 86–186) -/

/-- Regex `\w` on a single character (ASCII model, see `pyIsAlnum`). -/
def pyIsWord (c : Char) : Bool := pyIsAlnum c || c == '_'

/-- Regex `\d` on a single character (ASCII model). -/
def pyIsDigit (c : Char) : Bool := c.isDigit

/-- The non-breaking space ` `. -/
def nbsp : Char := ' '

/-- Python's `str.lower()` (character-wise). -/
def lowerStr (s : Str) : Str := s.map Char.toLower

/-- `unicodedata.normalize('NFKC', s)`, modelled on the character repertoire
this development uses: NFKC rewrites the non-breaking space to an ordinary
space and leaves ASCII untouched (no other compatibility characters occur in
any statement below). -/
def pyNFKC (s : Str) : Str := s.map (fun c => if c == nbsp then ' ' else c)

/-- A Python number as produced by `int(...)` / `float(...)`: the dynamic
type is significant because `str(num)` differs between the two. -/
inductive PyNum
  | int (n : Int)
  | float (ip : Int) (frac : Str)
deriving DecidableEq

/-- The numeric value of a `PyNum` (`float` literals parsed from decimal
strings are modelled exactly; IEEE rounding is irrelevant to every claim,
which only exercise integer inputs). -/
def PyNum.val : PyNum → Rat
  | .int n => (n : Rat)
  | .float ip frac =>
    (ip : Rat) + (frac.foldl (fun a c => a * 10 + (c.toNat - 48)) 0 : Nat) /
      ((10 : Rat) ^ frac.length)

/-- Parse a digit run as a natural number. -/
def parseDigits : Str → Option Nat
  | [] => none
  | ds => if ds.all pyIsDigit
          then some (ds.foldl (fun a c => a * 10 + (c.toNat - 48)) 0)
          else none

/-- `float(clean) if '.' in clean else int(clean)` (line 156), on the strings
the surrounding regex can produce (digits with at most one dot). -/
def parsePyNumber (clean : Str) : Option PyNum :=
  if clean.contains '.' then
    match clean.splitOn '.' with
    | [ip, fp] =>
      match parseDigits ip, parseDigits fp with
      | some i, some f =>
        let _ := f
        some (.float (Int.ofNat i) fp)
      | some i, none => if fp.isEmpty then some (.float (Int.ofNat i) []) else none
      | none, some _ => if ip.isEmpty then some (.float 0 fp) else none
      | none, none => none
    | _ => none
  else
    (parseDigits clean).map (fun n => .int (Int.ofNat n))

/-- `str(num)` for the two `PyNum` shapes (line 173; Python renders the float
parsed from `i.f` back as `i.f` for the short decimal literals in scope). -/
def pyStrNum : PyNum → Str
  | .int n =>
    if n < 0 then '-' :: Nat.toDigits 10 n.natAbs else Nat.toDigits 10 n.natAbs
  | .float ip frac =>
    (if ip < 0 then '-' :: Nat.toDigits 10 ip.natAbs else Nat.toDigits 10 ip.natAbs)
      ++ '.' :: (if frac.isEmpty then [ '0' ] else frac)

/-- Modelled from the spec: the absent `lib.lang.language_math_phonemes`
table for English — the character-by-character phoneme fallback used when
`num2words` is unavailable (digit and math-symbol words). -/
def language_math_phonemes_eng : List (Char × Str) :=
  [('0', str "zero"), ('1', str "one"), ('2', str "two"), ('3', str "three"),
   ('4', str "four"), ('5', str "five"), ('6', str "six"), ('7', str "seven"),
   ('8', str "eight"), ('9', str "nine"), ('.', str "point"), ('-', str "minus"),
   ('+', str "plus"), ('=', str "equals"), ('/', str "slash"), ('*', str "star"),
   ('x', str "times"), ('%', str "percent")]

/-- `phoneme_map.get(ch, ch)` against the modelled English table (the
registry falls back to the default/English table for other codes, exactly as
lines 169–172 do). -/
def phonemeGet (ch : Char) : Str :=
  match language_math_phonemes_eng.find? (fun p => p.1 == ch) with
  | some p => p.2
  | none => [ch]

/-- `' '.join(items)`. -/
def joinSpace : List Str → Str
  | [] => []
  | [x] => x
  | x :: xs => x ++ ' ' :: joinSpace xs

/-- `"{:,}".format(n)`: decimal digits grouped in threes with commas. -/
def groupDigitsGo : Nat → Str → Str
  | _, [] => []
  | k, c :: cs =>
    if k == 3 then ',' :: c :: groupDigitsGo 1 cs
    else c :: groupDigitsGo (k + 1) cs

/-- `"{:,}".format(n)` for a natural number. -/
def formatCommas (n : Nat) : Str :=
  ((groupDigitsGo 0 ((Nat.toDigits 10 n).reverse)).reverse)

/-- `normalize_commas(num_str)` (lines 137–147): drop NBSP and spaces, split
off the decimal part, re-group the integer part canonically. -/
def normalize_commas (num_str : Str) : Str :=
  let tok := num_str.filter (fun c => !(c == nbsp || c == ' '))
  if tok.contains '.' then
    let ip := tok.takeWhile (fun c => c != '.')
    let dp := (tok.dropWhile (fun c => c != '.')).drop 1
    let ipn := (parseDigits (ip.filter (fun c => c != ','))).getD 0
    formatCommas ipn ++ '.' :: dp
  else
    formatCommas ((parseDigits (tok.filter (fun c => c != ','))).getD 0)

/-- `clean_single_num(num_str)` (lines 149–173).  `n2w` stands for the
external `num2words` library (an external collaborator); the `lang` argument
selects the phoneme table (the modelled registry resolves every code to the
English table, mirroring the `.get(lang, default)` chain).  The re-binding
`tok = normalize_commas(tok)` of line 162 is kept although neither branch
reads it afterwards, exactly as in the source. -/
def clean_single_num (n2w : PyNum → Str) (maxv : Int) (compat : Bool)
    (num_str : Str) : Str :=
  let tok := pyNFKC num_str
  if lowerStr tok == str "inf" || lowerStr tok == str "infinity" ||
      lowerStr tok == str "nan" then tok
  else
    let clean := tok.filter (fun c => !(c == ',' || c == nbsp || c == ' '))
    match parsePyNumber clean with
    | none => tok
    | some num =>
      if (maxv : Rat) < |num.val| then tok
      else
        let _tok := normalize_commas tok
        if compat then n2w num
        else joinSpace ((pyStrNum num).map phonemeGet)

/-- Take up to `n` leading characters satisfying `p`. -/
def takeUpTo (n : Nat) (p : Char → Bool) (s : Str) : Str × Str :=
  let d := (s.takeWhile p).take n
  (d, s.drop d.length)

/-- The comma-group loop `(?:,\s*\d{1,18})*` of the number regex (line 130):
greedily consume `, <spaces> <1–18 digits>` groups.  `fuel` bounds the
recursion (each successful iteration consumes at least two characters). -/
def commaGroups : Nat → Str → Str × Str
  | 0, s => ([], s)
  | fuel + 1, s =>
    match s with
    | ',' :: r =>
      let sp := r.takeWhile pyIsSpace
      let r1 := r.drop sp.length
      let dr := takeUpTo 18 pyIsDigit r1
      if dr.1.isEmpty then ([], s)
      else
        let out := commaGroups fuel dr.2
        (',' :: sp ++ dr.1 ++ out.1, out.2)
    | _ => ([], s)

/-- One number of the regex (group 1 or group 3):
`\d{1,18}(?:,\s*\d{1,18})*(?:\.\d{1,12})?`.  Returns the matched text and
the remainder, or `none` when no digit starts here. -/
def parseNumberTok (s : Str) : Option (Str × Str) :=
  let d := takeUpTo 18 pyIsDigit s
  if d.1.isEmpty then none
  else
    let cg := commaGroups d.2.length d.2
    let afterCommas := cg.2
    match afterCommas with
    | '.' :: r =>
      let f := takeUpTo 12 pyIsDigit r
      if f.1.isEmpty then some (d.1 ++ cg.1, afterCommas)
      else some (d.1 ++ cg.1 ++ '.' :: f.1, f.2)
    | _ => some (d.1 ++ cg.1, afterCommas)

/-- A full match of the `number_re` pattern (lines 128–135): the matched
original text, the four groups and the remainder. -/
structure NumMatch where
  matched : Str
  g1 : Str
  dash : Option Char
  g3 : Option Str
  g4 : Str
  rest : Str

/-- Match `number_re` at the current position: group 1, then the optional
`\s*([-–—])\s*<number>` range half (consumed only when it matches in full),
then the greedy trailing-punctuation group `([^\w\s]*)`. -/
def parseNumMatch (s : Str) : Option NumMatch :=
  match parseNumberTok s with
  | none => none
  | some (g1, r1) =>
    let withDash :=
      let sp1 := r1.takeWhile pyIsSpace
      match r1.drop sp1.length with
      | d :: r2 =>
        if d == '-' || d == '–' || d == '—' then
          let sp2 := r2.takeWhile pyIsSpace
          match parseNumberTok (r2.drop sp2.length) with
          | some (g3, r3) => some (sp1 ++ d :: sp2 ++ g3, d, g3, r3)
          | none => none
        else none
      | [] => none
    match withDash with
    | some (mid, d, g3, r3) =>
      let g4 := r3.takeWhile (fun c => !(pyIsWord c || pyIsSpace c))
      some ⟨g1 ++ mid ++ g4, g1, some d, some g3, g4, r3.drop g4.length⟩
    | none =>
      let g4 := r1.takeWhile (fun c => !(pyIsWord c || pyIsSpace c))
      some ⟨g1 ++ g4, g1, none, none, g4, r1.drop g4.length⟩

/-- `clean_match(match)` (lines 175–184): convert each captured number,
re-attach the dash and the trailing punctuation verbatim. -/
def clean_match (n2w : PyNum → Str) (maxv : Int) (compat : Bool)
    (m : NumMatch) : Str :=
  let first_num := clean_single_num n2w maxv compat m.g1
  let dash_char : Str := match m.dash with | some d => [d] | none => []
  let second_num : Str := match m.g3 with
    | some g => clean_single_num n2w maxv compat g
    | none => []
  first_num ++ dash_char ++ second_num ++ m.g4

/-- The `number_re.sub(clean_match, text)` scan (line 186): try the pattern
at every position whose preceding character is not a word character
(`(?<!\w)`, checked against the original text), copying unmatched characters
through.  `fuel` bounds the recursion; every step consumes at least one
character. -/
def formatScanGo (n2w : PyNum → Str) (maxv : Int) (compat : Bool) :
    Nat → Option Char → Str → Str
  | 0, _, s => s
  | _ + 1, _, [] => []
  | fuel + 1, prev, c :: cs =>
    let lookbehindOK := match prev with
      | none => true
      | some p => !pyIsWord p
    if lookbehindOK && pyIsDigit c then
      match parseNumMatch (c :: cs) with
      | some m =>
        clean_match n2w maxv compat m ++
          formatScanGo n2w maxv compat fuel m.matched.getLast? m.rest
      | none => c :: formatScanGo n2w maxv compat fuel (some c) cs
    else
      c :: formatScanGo n2w maxv compat fuel (some c) cs

/-- `set_formatted_number(text, lang, lang_iso1, is_num2words_compat,
max_single_value)` (number_converter.py lines 86–186).  `n2w` models the
external `num2words` library for the compatible branch; the phoneme fallback
uses the modelled English table. -/
def set_formatted_number (n2w : PyNum → Str) (text : Str)
    (is_num2words_compat : Bool) (max_single_value : Int) : Str :=
  formatScanGo n2w max_single_value is_num2words_compat text.length none text

/-- The default `max_single_value` (line 91): 999 quadrillion. -/
def MAX_SINGLE_VALUE : Int := 999999999999999999


/-! ## Math and ordinal conversion — `math_converter.py`, `math2words` -/

/-- The external `num2words` word-generation capability (an external
collaborator).  Modelled from the spec: a per-language boolean availability
flag plus callables `number -> words` (cardinal) and `number -> words`
(ordinal); the ordinal callable may fail (`None`), in which case callers keep
the original token. -/
structure WordGen where
  cardinal : PyNum → Str
  cardinalNat : Nat → Str
  ordinal : Nat → Option Str

/-- `re.sub(r'(\d)\)', r'\1 : ', text)` (math_converter.py line 66): a digit
followed by a closing parenthesis becomes the digit, a spaced colon and a
trailing space. -/
def parenDigitSub : Str → Str
  | [] => []
  | [c] => [c]
  | c :: c2 :: cs =>
    if pyIsDigit c && c2 == ')' then c :: ' ' :: ':' :: ' ' :: parenDigitSub cs
    else c :: parenDigitSub (c2 :: cs)

/-- The ordinal suffixes `st|nd|rd|th` (lower case: the pattern at
math_converter.py line 63 carries no IGNORECASE flag). -/
def ordSuffixAt (s : Str) : Option Str :=
  if (str "st").isPrefixOf s then some (str "st")
  else if (str "nd").isPrefixOf s then some (str "nd")
  else if (str "rd").isPrefixOf s then some (str "rd")
  else if (str "th").isPrefixOf s then some (str "th")
  else none

/-- Try the ordinal pattern `(\d+)(?:\s| )*(?:st|nd|rd|th)(?!\w)` at the
current position: the digits, the matched original text and the remainder. -/
def parseOrdinalAt (s : Str) : Option (Str × Str × Str) :=
  let d := s.takeWhile pyIsDigit
  if d.isEmpty then none
  else
    let r1 := s.drop d.length
    let sp := r1.takeWhile (fun c => pyIsSpace c || c == nbsp)
    match ordSuffixAt (r1.drop sp.length) with
    | some suf =>
      let r2 := (r1.drop sp.length).drop suf.length
      match r2 with
      | c :: _ => if pyIsWord c then none else some (d, d ++ sp ++ suf, r2)
      | [] => some (d, d ++ sp ++ suf, r2)
    | none => none

/-- The `re_ordinal.sub(_ordinal_to_words, text)` scan (lines 50–69): with
num2words available the digits become an ordinal word (keeping the original
token when the library call fails); otherwise the token is kept as-is.
`prev` carries the previous original character for the `(?<!\w)` lookbehind. -/
def ordinalSub (wg : WordGen) (compat : Bool) :
    Nat → Option Char → Str → Str
  | 0, _, s => s
  | _ + 1, _, [] => []
  | fuel + 1, prev, c :: cs =>
    let lookbehindOK := match prev with
      | none => true
      | some p => !pyIsWord p
    if lookbehindOK && pyIsDigit c then
      match parseOrdinalAt (c :: cs) with
      | some (d, matched, rest) =>
        let repl :=
          if compat then
            match wg.ordinal ((parseDigits d).getD 0) with
            | some w => w
            | none => matched
          else matched
        repl ++ ordinalSub wg compat fuel matched.getLast? rest
      | none => c :: ordinalSub wg compat fuel (some c) cs
    else c :: ordinalSub wg compat fuel (some c) cs

/-- The ambiguous math symbols of math_converter.py line 72. -/
def ambiguous_symbols : List Char := ['-', '/', '*', 'x']

/-- Lines 74–77: the symbol replacement table — phoneme entries that are
neither digits nor `,`/`.`, split into the unambiguous and ambiguous parts. -/
def math_replacements : List (Char × Str) :=
  language_math_phonemes_eng.filter
    (fun p => !p.1.isDigit && p.1 != ',' && p.1 != '.')

/-- The unambiguous replacements (line 76). -/
def normal_replacements : List (Char × Str) :=
  math_replacements.filter (fun p => !ambiguous_symbols.contains p.1)

/-- The ambiguous replacements (line 77). -/
def ambiguous_replacements : List (Char × Str) :=
  math_replacements.filter (fun p => ambiguous_symbols.contains p.1)

/-- Lines 80–82: every occurrence of an unambiguous symbol becomes
`" word "`. -/
def normalSymbolSub (s : Str) : Str :=
  s.flatMap (fun c =>
    match normal_replacements.find? (fun p => p.1 == c) with
    | some p => ' ' :: p.2 ++ [' ']
    | none => [c])

/-- Try the first alternative of the ambiguous pattern at this position:
digits, optional spaces, one of the four ambiguous symbols (dash, slash,
star, x), optional spaces, digits, with the no-non-space lookahead (the
no-non-space lookbehind is checked by the caller).  Returns groups 1–3, the
matched text and the remainder. -/
def parseAmbiguousAt (s : Str) : Option (Str × Char × Str × Str × Str) :=
  let d1 := s.takeWhile pyIsDigit
  if d1.isEmpty then none
  else
    let r1 := s.drop d1.length
    let sp1 := r1.takeWhile pyIsSpace
    match r1.drop sp1.length with
    | sym :: r2 =>
      if ambiguous_symbols.contains sym then
        let sp2 := r2.takeWhile pyIsSpace
        let d2 := (r2.drop sp2.length).takeWhile pyIsDigit
        if d2.isEmpty then none
        else
          let r3 := (r2.drop sp2.length).drop d2.length
          if lookaheadSpaceOrEnd r3 then
            some (d1, sym, d2, d1 ++ sp1 ++ sym :: sp2 ++ d2, r3)
          else none
      else none
    | [] => none

/-- Try the second alternative: an ambiguous symbol, optional spaces and
digits, with the no-non-space lookahead. -/
def parseAmbiguousLeadAt (s : Str) : Option (Str × Str) :=
  match s with
  | sym :: r =>
    if ambiguous_symbols.contains sym then
      let sp := r.takeWhile pyIsSpace
      let d := (r.drop sp.length).takeWhile pyIsDigit
      if d.isEmpty then none
      else
        let r2 := (r.drop sp.length).drop d.length
        if lookaheadSpaceOrEnd r2 then some (sym :: sp ++ d, r2) else none
    else none
  | [] => none

/-- Lines 84–93: `repl_ambiguous` rewrites a `num SYMBOL num` match to
`num word num`; a match of the second alternative sets only groups 4–5, so
both guards of `repl_ambiguous` (which test groups 2 and 3) fail and the
match is reproduced unchanged.  `prevNonSpace` tracks whether the preceding
original character is a non-space (`(?<!\S)`). -/
def ambiguousSub : Nat → Bool → Str → Str
  | 0, _, s => s
  | _ + 1, _, [] => []
  | fuel + 1, prevIsNonSpace, c :: cs =>
    if prevIsNonSpace then
      c :: ambiguousSub fuel (!pyIsSpace c) cs
    else
      match parseAmbiguousAt (c :: cs) with
      | some (d1, sym, d2, matched, rest) =>
        let w := match ambiguous_replacements.find? (fun p => p.1 == sym) with
          | some p => p.2
          | none => [sym]
        let repl := d1 ++ ' ' :: w ++ ' ' :: d2
        repl ++ ambiguousSub fuel (!pyIsSpace (matched.getLast?.getD ' ')) rest
      | none =>
        match parseAmbiguousLeadAt (c :: cs) with
        | some (matched, rest) =>
          matched ++ ambiguousSub fuel (!pyIsSpace (matched.getLast?.getD ' ')) rest
        | none => c :: ambiguousSub fuel (!pyIsSpace c) cs

/-- `math2words(text, lang, lang_iso1, tts_engine, is_num2words_compat)`
(math_converter.py lines 13–98): parenthesis cleanup, ordinal conversion,
unambiguous symbol replacement, ambiguous symbol replacement in strict
contexts, then the general number formatter. -/
def math2words (wg : WordGen) (text : Str) (compat : Bool) : Str :=
  let t1 := parenDigitSub text
  let t2 := ordinalSub wg compat t1.length none t1
  let t3 := normalSymbolSub t2
  let t4 := ambiguousSub t3.length false t3
  set_formatted_number wg.cardinal t4 compat MAX_SINGLE_VALUE

/-! ## Clock-time conversion — `date_converter.py`, `clock2words` (lines 96–205) -/

/-- A language's clock phrase templates (the `language_clock` entries of the
absent `lib.lang` module).  Modelled from the spec: keyed phrase patterns
"oclock", "quarter_past", "half_past", "quarter_to", "past", "to", a seconds
clause, a combining template and exceptional named hours. -/
structure ClockPhrases where
  oclock : Str → Str
  quarter_past : Str → Str
  half_past : Str → Str
  quarter_to : Str → Str
  past_tpl : Str → Str → Str
  to_tpl : Str → Str → Str
  second_tpl : Str → Str
  full_tpl : Str → Str → Str
  special_hours : List (Nat × Str)

/-- Modelled from the spec: the English clock templates.  `half_past` is the
`"half past {hour}"` pattern formatted with the `hour` keyword argument at
date_converter.py line 183. -/
def language_clock_eng : ClockPhrases where
  oclock := fun h => h ++ str " oclock"
  quarter_past := fun h => str "quarter past " ++ h
  half_past := fun h => str "half past " ++ h
  quarter_to := fun nh => str "quarter to " ++ nh
  past_tpl := fun h m => m ++ str " past " ++ h
  to_tpl := fun nh m => m ++ str " to " ++ nh
  second_tpl := fun s => str "and " ++ s ++ str " seconds"
  full_tpl := fun p sp => p ++ ' ' :: sp
  special_hours := [(0, str "midnight"), (12, str "noon")]

/-- Modelled from the spec: the `language_clock` registry of the absent
`lib.lang` module, restricted to the English profile used by the claims. -/
def language_clock (lang : Str) : Option ClockPhrases :=
  if lang = str "eng" then some language_clock_eng else none

/-- Greedy `\d{1,2}`: up to two leading digits. -/
def take2Digits (s : Str) : Str × Str :=
  takeUpTo 2 pyIsDigit s

/-- A `[:.]` separator. -/
def isClockSep (c : Char) : Bool := c == ':' || c == '.'

/-- Match `(\d{1,2})[:.](\d{1,2})(?:[:.](\d{1,2}))?` at this position,
backtracking the greedy hour group from two digits to one when the separator
does not follow.  Returns (hour digits, minute digits, optional second
digits, matched text, remainder). -/
def parseClockAt (s : Str) : Option (Str × Str × Option Str × Str × Str) :=
  let tryFrom : Str → Str → Option (Str × Str × Option Str × Str × Str) :=
    fun h r =>
      match r with
      | sep :: r1 =>
        if isClockSep sep then
          let m := take2Digits r1
          if m.1.isEmpty then none
          else
            let base := h ++ sep :: m.1
            match m.2 with
            | sep2 :: r2 =>
              if isClockSep sep2 then
                let sc := take2Digits r2
                if sc.1.isEmpty then some (h, m.1, none, base, m.2)
                else some (h, m.1, some sc.1, base ++ sep2 :: sc.1, sc.2)
              else some (h, m.1, none, base, m.2)
            | [] => some (h, m.1, none, base, m.2)
        else none
      | [] => none
  let d := take2Digits s
  if d.1.isEmpty then none
  else
    match tryFrom d.1 d.2 with
    | some out => some out
    | none =>
      if d.1.length == 2 then
        tryFrom (d.1.take 1) (s.drop 1)
      else none

/-- The body of `repl_num` (date_converter.py lines 139–203) for an already
parsed match: range validation, the per-language phrase selection — on the
hour, quarter past, half past (with the German next-hour convention), quarter
to, minutes past, minutes to — and the seconds clause.  `n2w` is the helper
of lines 124–137: the external `num2words` when the language is compatible,
`math2words` otherwise. -/
def clockPhrase (lc? : Option ClockPhrases) (lang : Str) (n2w : Nat → Str)
    (h mnt : Nat) (sec? : Option Nat) (matched : Str) : Str :=
  if !(h ≤ 23 && mnt ≤ 59 && (match sec? with
        | none => true
        | some sc => sc ≤ 59)) then matched
  else
    match lc? with
    | none =>
      joinSpace ([n2w h] ++ (if mnt != 0 then [n2w mnt] else []) ++
        (match sec? with
         | some sc => if sc > 0 then [n2w sc] else []
         | none => []))
    | some lc =>
      let next_hour := (h + 1) % 24
      let phrase :=
        if mnt == 0 && (match sec? with | none => true | some sc => sc == 0) then
          match lc.special_hours.find? (fun p => p.1 == h) with
          | some p => p.2
          | none => lc.oclock (n2w h)
        else if mnt == 15 then lc.quarter_past (n2w h)
        else if mnt == 30 then
          if lang = str "deu" then lc.half_past (n2w next_hour)
          else lc.half_past (n2w h)
        else if mnt == 45 then lc.quarter_to (n2w next_hour)
        else if mnt < 30 then
          if mnt != 0 then lc.past_tpl (n2w h) (n2w mnt) else lc.oclock (n2w h)
        else lc.to_tpl (n2w next_hour) (n2w (60 - mnt))
      match sec? with
      | some sc =>
        if sc > 0 then lc.full_tpl phrase (lc.second_tpl (n2w sc)) else phrase
      | none => phrase

/-- The `time_rx.sub(repl_num, text)` scan of `clock2words` (line 205). -/
def clockScanGo (lc? : Option ClockPhrases) (lang : Str) (n2w : Nat → Str) :
    Nat → Str → Str
  | 0, s => s
  | _ + 1, [] => []
  | fuel + 1, c :: cs =>
    match parseClockAt (c :: cs) with
    | some (hd, md, sd, matched, rest) =>
      clockPhrase lc? lang n2w ((parseDigits hd).getD 0) ((parseDigits md).getD 0)
          (sd.map (fun d => (parseDigits d).getD 0)) matched
        ++ clockScanGo lc? lang n2w fuel rest
    | none => c :: clockScanGo lc? lang n2w fuel cs

/-- `clock2words(text, lang, lang_iso1, tts_engine, is_num2words_compat)`
(date_converter.py lines 96–205).  The `n2w` helper uses the external
`num2words` library (`wg.cardinalNat`) when the language is compatible and
`math2words` on the fallback path, exactly as lines 130–134. -/
def clock2words (wg : WordGen) (text : Str) (lang : Str) (compat : Bool) : Str :=
  let lang_lc := lowerStr lang
  let n2w : Nat → Str := fun n =>
    if compat then wg.cardinalNat n
    else math2words wg (Nat.toDigits 10 n) compat
  clockScanGo (language_clock lang_lc) lang_lc n2w text.length text

/-- Modelled from the spec: English cardinal word generation for the numbers
the claims exercise (an instance of the external word-generation
capability). -/
def engOnes : List Str :=
  [str "zero", str "one", str "two", str "three", str "four", str "five",
   str "six", str "seven", str "eight", str "nine", str "ten", str "eleven",
   str "twelve", str "thirteen", str "fourteen", str "fifteen", str "sixteen",
   str "seventeen", str "eighteen", str "nineteen"]

/-- Modelled English tens words. -/
def engTens : List Str :=
  [[], [], str "twenty", str "thirty", str "forty", str "fifty", str "sixty",
   str "seventy", str "eighty", str "ninety"]

/-- Modelled English cardinal words below one hundred (digit fallback
above). -/
def engNumWords (n : Nat) : Str :=
  if h : n < 20 then
    engOnes.get ⟨n, by have h20 : engOnes.length = 20 := rfl; omega⟩
  else if h2 : n < 100 then
    engTens.get ⟨n / 10, by have h10 : engTens.length = 10 := rfl; omega⟩ ++
      (if n % 10 == 0 then []
       else '-' :: engOnes.get ⟨n % 10, by have h20 : engOnes.length = 20 := rfl; omega⟩)
  else Nat.toDigits 10 n

/-- The modelled English `num2words` collaborator. -/
def engWordGen : WordGen where
  cardinal := fun num =>
    match num with
    | .int n => if n < 0 then str "minus " ++ engNumWords n.natAbs else engNumWords n.natAbs
    | .float ip frac =>
      (if ip < 0 then str "minus " ++ engNumWords ip.natAbs else engNumWords ip.natAbs) ++
        str " point " ++ joinSpace (frac.map (fun c => engNumWords (c.toNat - 48)))
  cardinalNat := engNumWords
  ordinal := fun n => some (engNumWords n ++ str "th")


/-! ## Text normalization — `normalizer.py`, `normalize_text` (lines 42–149) -/

/-- Modelled from the spec: the `emojis_list` of the absent `lib.lang`
module (a configured emoji character set, step 1 of the Normalizer). -/
def emojis_list : List Char := ['😀', '😂', '😍', '❤']

/-- Modelled from the spec: the English `abbreviations_mapping` of the
absent `lib.lang` module (case-insensitive whole-token expansions). -/
def abbreviations_mapping_eng : List (Str × Str) :=
  [(str "Mrs.", str "Misses"), (str "Mr.", str "Mister"), (str "Dr.", str "Doctor")]

/-- Modelled from the spec: the `punctuation_switch` table of the absent
`lib.lang` module — punctuation known to induce synthesis artifacts swapped
for safer equivalents (step 6).  Its domain is disjoint from the parentheses
handled by step 9. -/
def punctuation_switch : List (Char × Char) :=
  [('…', '.'), ('«', '"'), ('»', '"'), ('“', '"'), ('”', '"'), ('—', ',')]

/-- Modelled from the spec: the English `specialchars_mapping` of the absent
`lib.lang` module — each mapped character becomes `" word "` (step 12). -/
def specialchars_mapping_eng : List (Char × Str) :=
  [('&', str "and"), ('%', str "percent"), ('@', str "at"),
   ('#', str "hash"), ('$', str "dollar")]

/-- Replace every occurrence of the literal substring `pat` by `repl`
(leftmost, non-overlapping), as `re.sub(re.escape(pat), repl, s)` does.
`fuel` bounds the recursion; one character is consumed per step. -/
def replaceAllSub (pat repl : Str) : Nat → Str → Str
  | 0, s => s
  | _ + 1, [] => []
  | fuel + 1, c :: cs =>
    if !pat.isEmpty && pat.isPrefixOf (c :: cs) then
      repl ++ replaceAllSub pat repl fuel ((c :: cs).drop pat.length)
    else c :: replaceAllSub pat repl fuel cs

/-- `filter_sml(text)` (normalizer.py lines 19–39): replace the bracketed
marker names by the padded marker values.  Modelled from the spec: the
absent `TTS_SML` table holds exactly the keys `break` and `pause` (the two
values used throughout processor.py and sentence_splitter.py); the `'###'`
special case of lines 32–35 concerns no key of the modelled table. -/
def filter_sml (text : Str) : Str :=
  let t1 := replaceAllSub (str "[break]") (' ' :: BRK ++ [' ']) text.length text
  replaceAllSub (str "[pause]") (' ' :: PSE ++ [' ']) t1.length t1

/-- ASCII letter (regex `[a-zA-Z]` and, for the inputs in scope, `\p{L}`). -/
def pyIsLetter (c : Char) : Bool := c.isAlpha

/-- Count the leading `(?:[a-zA-Z]\.)` pairs of the acronym pattern. -/
def acronymPairCount : Str → Nat
  | a :: '.' :: r => if pyIsLetter a then acronymPairCount r + 1 else 0
  | _ => 0

/-- Try the acronym pattern `\b(?:[a-zA-Z]\.){1,}[a-zA-Z]?\b\.?` with exactly
`j` pairs at the current position (the leading `\b` is checked by the
caller): the optional letter is tried greedily first, then the bare form;
each needs the inner `\b` to hold, and the optional trailing dot is taken
when present.  Returns the matched length. -/
def acronymTryLen (s : Str) : Nat → Option Nat
  | 0 => none
  | j + 1 =>
    let consumed := 2 * (j + 1)
    let rest := s.drop consumed
    let withLetter : Option Nat :=
      match rest with
      | l :: r2 =>
        if pyIsLetter l then
          match r2 with
          | [] => some (consumed + 1)
          | '.' :: _ => some (consumed + 2)
          | c2 :: _ => if pyIsWord c2 then none else some (consumed + 1)
        else none
      | [] => none
    match withLetter with
    | some len => some len
    | none =>
      match rest with
      | c2 :: _ => if pyIsWord c2 then some consumed else acronymTryLen s j
      | [] => acronymTryLen s j

/-- The acronym pass (normalizer.py lines 91–95): each match loses its dots
and is upper-cased.  `prev` carries the previous original character for the
leading `\b` (every match starts with a letter, so the boundary holds exactly
when the previous character is not a word character). -/
def acronymSub : Nat → Option Char → Str → Str
  | 0, _, s => s
  | _ + 1, _, [] => []
  | fuel + 1, prev, c :: cs =>
    let boundaryOK := match prev with
      | none => true
      | some p => !pyIsWord p
    if boundaryOK && pyIsLetter c then
      match acronymTryLen (c :: cs) (acronymPairCount (c :: cs)) with
      | some len =>
        let matched := (c :: cs).take len
        (matched.filter (fun ch => ch != '.')).map Char.toUpper ++
          acronymSub fuel matched.getLast? ((c :: cs).drop len)
      | none => c :: acronymSub fuel (some c) cs
    else c :: acronymSub fuel (some c) cs

/-- Try one abbreviation key (case-insensitively) at this position with the
trailing `(?!\w)`; the keys are examined longest first, as the sorted
alternation of lines 79–84 does. -/
def abbrevMatchAt (keys : List Str) (s : Str) : Option Str :=
  keys.find? (fun k =>
    lowerStr (s.take k.length) == lowerStr k &&
      k.length ≤ s.length &&
      (match s.drop k.length with
       | c :: _ => !pyIsWord c
       | [] => true))

/-- `repl_abbreviations` (lines 70–75): return the expansion of the first
mapping entry whose key equals the token case-insensitively. -/
def abbrevExpand (token : Str) : Str :=
  match abbreviations_mapping_eng.find? (fun p => lowerStr token == lowerStr p.1) with
  | some p => p.2
  | none => token

/-- The abbreviation pass (lines 68–87) for a language present in
`abbreviations_mapping`: whole-token, case-insensitive, longest-first. -/
def abbrevSub (keys : List Str) : Nat → Option Char → Str → Str
  | 0, _, s => s
  | _ + 1, _, [] => []
  | fuel + 1, prev, c :: cs =>
    let lookbehindOK := match prev with
      | none => true
      | some p => !pyIsWord p
    if lookbehindOK then
      match abbrevMatchAt keys (c :: cs) with
      | some k =>
        let token := (c :: cs).take k.length
        abbrevExpand token ++
          abbrevSub keys fuel token.getLast? ((c :: cs).drop k.length)
      | none => c :: abbrevSub keys fuel (some c) cs
    else c :: abbrevSub keys fuel (some c) cs

/-- Insert a key into a length-descending list, after keys of equal length
(stability, as Python's `sorted` guarantees). -/
def insertByLen (k : Str) : List Str → List Str
  | [] => [k]
  | x :: xs => if x.length < k.length then k :: x :: xs else x :: insertByLen k xs

/-- Stable sort by descending length (line 80:
`sorted(mapping.keys(), key=len, reverse=True)`). -/
def sortKeysDesc (l : List Str) : List Str :=
  l.foldl (fun acc k => insertByLen k acc) []

/-- The abbreviation keys sorted by descending length (line 80). -/
def abbrevKeysSorted : List Str :=
  sortKeysDesc (abbreviations_mapping_eng.map Prod.fst)

/-- Count a leading run of newline units (`\r\n`, `\r` or `\n`, the
alternation preferring `\r\n`), returning the count and the remainder. -/
def newlineUnits : Str → Nat × Str
  | '\r' :: '\n' :: r => let out := newlineUnits r; (out.1 + 1, out.2)
  | '\r' :: r => let out := newlineUnits r; (out.1 + 1, out.2)
  | '\n' :: r => let out := newlineUnits r; (out.1 + 1, out.2)
  | s => (0, s)

/-- Lines 100–102: `(?:\r\n|\r|\n){2,}` becomes `" ‡pause‡ "`; a single
newline unit is not a match and is copied through. -/
def collapseNewlineRuns : Nat → Str → Str
  | 0, s => s
  | _ + 1, [] => []
  | fuel + 1, c :: cs =>
    let run := newlineUnits (c :: cs)
    if 2 ≤ run.1 then
      (' ' :: PSE ++ [' ']) ++ collapseNewlineRuns fuel run.2
    else c :: collapseNewlineRuns fuel cs

/-- Line 105: remaining single newline units become spaces. -/
def singleNewlinesToSpace : Str → Str
  | [] => []
  | '\r' :: '\n' :: r => ' ' :: singleNewlinesToSpace r
  | '\r' :: r => ' ' :: singleNewlinesToSpace r
  | '\n' :: r => ' ' :: singleNewlinesToSpace r
  | c :: r => c :: singleNewlinesToSpace r

/-- Lines 107–113: swap the punctuation of `punctuation_switch`. -/
def punctuationSwitchSub (s : Str) : Str :=
  s.map (fun c =>
    match punctuation_switch.find? (fun p => p.1 == c) with
    | some p => p.2
    | none => c)

/-- The scanner behind `collapseWS`: `prevSpace` records whether the
previous character belonged to a whitespace run already emitted. -/
def collapseWSGo (prevSpace : Bool) : Str → Str
  | [] => []
  | c :: cs =>
    if pyIsSpace c then
      if prevSpace then collapseWSGo true cs else ' ' :: collapseWSGo true cs
    else c :: collapseWSGo false cs

/-- Line 119: `re.sub(r'\s+', ' ', text)` — collapse whitespace runs. -/
def collapseWS (s : Str) : Str := collapseWSGo false s

/-- Line 122: `\bok\b` (case-insensitive) becomes `Okay`. -/
def okaySub : Nat → Option Char → Str → Str
  | 0, _, s => s
  | _ + 1, _, [] => []
  | fuel + 1, prev, c :: cs =>
    let lookbehindOK := match prev with
      | none => true
      | some p => !pyIsWord p
    if lookbehindOK && lowerStr ((c :: cs).take 2) == str "ok" &&
        (match (c :: cs).drop 2 with
         | c2 :: _ => !pyIsWord c2
         | [] => true) then
      str "Okay" ++ okaySub fuel (some 'k') ((c :: cs).drop 2)
    else c :: okaySub fuel (some c) cs

/-- Line 125: `\(([^)]+)\)` becomes `"\1"` — a parenthetical with a
non-empty, parenthesis-free body is rewritten to double quotes. -/
def parenSub : Nat → Str → Str
  | 0, s => s
  | _ + 1, [] => []
  | fuel + 1, c :: cs =>
    if c == '(' then
      let mid := cs.takeWhile (fun ch => ch != ')')
      match cs.drop mid.length with
      | ')' :: r =>
        if mid.isEmpty then c :: parenSub fuel cs
        else '"' :: mid ++ '"' :: parenSub fuel r
      | _ => c :: parenSub fuel cs
    else c :: parenSub fuel cs

/-- Lines 127–133: `(\s*(P)\s*)+` becomes `\2 ` — a maximal run of
whitespace and splitting punctuation containing at least one punctuation
character collapses to its last punctuation character and a space (the
repeated group's capture keeps the last repetition). -/
def punctRunSub (puncts : List Char) : Nat → Str → Str
  | 0, s => s
  | _ + 1, [] => []
  | fuel + 1, c :: cs =>
    let run := (c :: cs).takeWhile (fun ch => pyIsSpace ch || puncts.contains ch)
    if (run.filter puncts.contains).isEmpty then
      c :: punctRunSub puncts fuel cs
    else
      match (run.filter puncts.contains).getLast? with
      | some p => p :: ' ' :: punctRunSub puncts fuel ((c :: cs).drop run.length)
      | none => c :: punctRunSub puncts fuel cs

/-- Line 136: insert a space at every letter–digit or digit–letter
boundary. -/
def spaceLetterDigit : Str → Str
  | a :: b :: r =>
    if (pyIsLetter a && pyIsDigit b) || (pyIsDigit a && pyIsLetter b) then
      a :: ' ' :: spaceLetterDigit (b :: r)
    else a :: spaceLetterDigit (b :: r)
  | s => s

/-- Lines 138–144: translate each special character to `" word "`. -/
def specialcharsSub (s : Str) : Str :=
  s.flatMap (fun c =>
    match specialchars_mapping_eng.find? (fun p => p.1 == c) with
    | some p => ' ' :: p.2 ++ [' ']
    | none => [c])

/-- The scanner behind `pySplitWS`; `cur` holds the current word reversed. -/
def pySplitWSGo (cur : Str) : Str → List Str
  | [] => if cur.isEmpty then [] else [cur.reverse]
  | c :: cs =>
    if pyIsSpace c then
      if cur.isEmpty then pySplitWSGo [] cs
      else cur.reverse :: pySplitWSGo [] cs
    else pySplitWSGo (c :: cur) cs

/-- Python's `text.split()` (split on whitespace runs, no empty fields). -/
def pySplitWS (s : Str) : List Str := pySplitWSGo [] s

/-- `normalize_text(text, lang, lang_iso1, tts_engine)` (normalizer.py lines
42–149): emoji removal, abbreviation expansion, acronym casing, marker
insertion, newline collapsing, punctuation switching, NBSP and whitespace
normalization, `ok` to `Okay`, parentheses to quotes, punctuation-run
reduction, letter–digit spacing, special-character words and a final
whitespace join.  Only `lang` is read by the body; `lang_iso1` and
`tts_engine` are accepted and ignored, exactly as in the source. -/
def normalize_text (text : Str) (lang : Str) (_lang_iso1 _tts_engine : Str) : Str :=
  let t1 := text.filter (fun c => !emojis_list.contains c)
  let t2 := if lang = str "eng"
    then abbrevSub abbrevKeysSorted t1.length none t1
    else t1
  let t3 := acronymSub t2.length none t2
  let t4 := filter_sml t3
  let t5 := collapseNewlineRuns t4.length t4
  let t6 := singleNewlinesToSpace t5
  let t7 := punctuationSwitchSub t6
  let t8 := t7.map (fun c => if c == nbsp then ' ' else c)
  let t9 := collapseWS t8
  let t10 := okaySub t9.length none t9
  let t11 := parenSub t10.length t10
  let t12 := pyStrip (punctRunSub punctuation_split_hard_set t11.length t11)
  let t13 := pyStrip (punctRunSub punctuation_split_soft_set t12.length t12)
  let t14 := spaceLetterDigit t13
  let t15 := specialcharsSub t14
  joinSpace (pySplitWS t15)


/-! ## Chapter filtering — `processor.py`, `filter_chapter` (lines 24–394) -/

/-- Python's `str.lstrip()` (drop leading whitespace). -/
def pyLStrip (s : Str) : Str := s.dropWhile pyIsSpace

/-- Does `pat` occur as a contiguous substring of `s`?  (Python's `in` on
strings, used by the excluded-type check at line 168.) -/
def isSubstr (pat : Str) : Str → Bool
  | [] => pat.isEmpty
  | c :: cs => pat.isPrefixOf (c :: cs) || isSubstr pat cs

mutual
/-- A parsed markup node — the BeautifulSoup tree `filter_chapter` walks
(produced from `doc.get_body_content()` at lines 151–152; the `html.parser`
backend stores tag and attribute names lower-cased): an element with tag
name, attributes and children, or a `NavigableString`. -/
inductive HNode where
  | tag (name : Str) (attrs : List (Str × Str)) (children : HForest)
  | text (s : Str)

/-- A list of sibling nodes (spelled as a separate inductive so that the
tree functions are mutually structural). -/
inductive HForest where
  | nil
  | cons (h : HNode) (t : HForest)
end

/-- The children of a node (`node.children`). -/
def HNode.children : HNode → HForest
  | .tag _ _ c => c
  | .text _ => .nil

/-- `node.get(key, "")` on a tag's attributes. -/
def attrGet (n : HNode) (k : Str) : Str :=
  match n with
  | .tag _ attrs _ =>
    match attrs.find? (fun p => p.1 == k) with
    | some p => p.2
    | none => []
  | .text _ => []

mutual
/-- `node.get_text(strip=True)`: the concatenation of all descendant strings,
each stripped (BeautifulSoup's default empty separator). -/
def get_text_strip : HNode → Str
  | .text s => pyStrip s
  | .tag _ _ c => getTextStripF c

/-- `get_text_strip` over a forest. -/
def getTextStripF : HForest → Str
  | .nil => []
  | .cons h t => get_text_strip h ++ getTextStripF t
end

mutual
/-- `soup.find(name)`: the first descendant-or-self element with the given
tag name, in document order. -/
def findTag (nm : Str) : HNode → Option HNode
  | .text _ => none
  | .tag n a c =>
    if n == nm then some (.tag n a c) else findTagF nm c

/-- `findTag` over a forest. -/
def findTagF (nm : Str) : HForest → Option HNode
  | .nil => none
  | .cons h t =>
    match findTag nm h with
    | some r => some r
    | none => findTagF nm t
end

mutual
/-- Lines 172–173: `for tag in soup(["script", "style"]): tag.decompose()` —
remove every script/style element from the tree. -/
def decompose : HNode → HNode
  | .text s => .text s
  | .tag n a c => .tag n a (decomposeF c)

/-- `decompose` over a forest. -/
def decomposeF : HForest → HForest
  | .nil => .nil
  | .cons h t =>
    match h with
    | .tag n _ _ =>
      if n == str "script" || n == str "style" then decomposeF t
      else .cons (decompose h) (decomposeF t)
    | .text s => .cons (.text s) (decomposeF t)
end

mutual
/-- Structural equality of nodes — BeautifulSoup's `Tag.__eq__` (same name,
attributes and contents), used by the `handled_tables` dedup at line 201. -/
def hnodeBeq : HNode → HNode → Bool
  | .text s, .text t => s == t
  | .tag n a c, .tag m b d => n == m && a == b && hforestBeq c d
  | .text _, .tag _ _ _ => false
  | .tag _ _ _, .text _ => false

/-- `hnodeBeq` over forests. -/
def hforestBeq : HForest → HForest → Bool
  | .nil, .nil => true
  | .cons h t, .cons h2 t2 => hnodeBeq h h2 && hforestBeq t t2
  | .nil, .cons _ _ => false
  | .cons _ _, .nil => false
end

mutual
/-- `tag.find_all(names)`: all descendant elements (document order) whose
name is in `nms` — the self node is not included, matching BeautifulSoup. -/
def findAllN (nms : List Str) : HNode → List HNode
  | .text _ => []
  | .tag n a c =>
    (if nms.contains n then [HNode.tag n a c] else []) ++ findAllF nms c

/-- `findAllN` over a forest. -/
def findAllF (nms : List Str) : HForest → List HNode
  | .nil => []
  | .cons h t => findAllN nms h ++ findAllF nms t
end

/-- `node.find_all(names)` (descendants only). -/
def findAllIn (nms : List Str) (n : HNode) : List HNode :=
  findAllF nms n.children

/-- The content items yielded by `tuple_row` (lines 80–141). -/
inductive Tup where
  | txt (s : Str)
  | heading (s : Str)
  | table (t : HNode)
  | brk
  | pause

/-- The tuple's type tag, for the `prev_typ` comparisons of lines 187–235. -/
inductive TupTyp where
  | txt | heading | table | brk | pause
deriving DecidableEq

/-- The type tag of a tuple. -/
def Tup.typ : Tup → TupTyp
  | .txt _ => .txt
  | .heading _ => .heading
  | .table _ => .table
  | .brk => .brk
  | .pause => .pause

/-- The tag categories of lines 145–148. -/
def heading_tags : List Str := [str "h1", str "h2", str "h3", str "h4"]

/-- `break_tags` (line 146). -/
def break_tags : List Str := [str "br", str "p"]

/-- `pause_tags` (line 147). -/
def pause_tags : List Str := [str "div", str "span"]

/-- `proc_tags` (line 148). -/
def proc_tags : List Str := heading_tags ++ break_tags ++ pause_tags

/-- The outer loop's `last_text_char` update (lines 123–125): the last
character of the last non-empty text/heading payload among the yielded
tuples, else the incoming value. -/
def lastFromTups (tups : List Tup) (last : Option Char) : Option Char :=
  tups.foldl (fun acc t =>
    match t with
    | .txt s => if s.isEmpty then acc else s.getLast?
    | .heading s => if s.isEmpty then acc else s.getLast?
    | _ => acc) last

mutual
/-- One iteration of the `for child in node.children` loop of `tuple_row`
(lines 99–136): returns the yielded tuples and the updated
`last_text_char`.  A `NavigableString` yields its stripped text; a heading
tag yields its `get_text(strip=True)`; a table yields itself; a `proc_tags`
element recurses and then appends a break (suppressed when the tracked last
character is alphanumeric or whitespace, line 130) or a pause; any other
element recurses transparently without updating the outer
`last_text_char`. -/
def tupleRowChild (child : HNode) (last : Option Char) : List Tup × Option Char :=
  match child with
  | .text s =>
    let tx := pyStrip s
    if tx.isEmpty then ([], last) else ([.txt tx], tx.getLast?)
  | .tag name attrs children =>
    if heading_tags.contains name then
      let title := get_text_strip (.tag name attrs children)
      if title.isEmpty then ([], last) else ([.heading title], title.getLast?)
    else if name == str "table" then
      ([.table (.tag name attrs children)], last)
    else if proc_tags.contains name then
      let inner := tupleRowChildren children last
      let tups := inner.1
      let last2 := lastFromTups tups last
      if tups.isEmpty then (tups, last2)
      else if break_tags.contains name then
        if !(match last2 with
             | some c => pyIsAlnum c || pyIsSpace c
             | none => false) then
          (tups ++ [.brk], last2)
        else (tups, last2)
      else (tups ++ [.pause], last2)
    else
      let inner := tupleRowChildren children last
      (inner.1, last)

/-- The `for child in node.children` loop itself, threading
`last_text_char` from child to child. -/
def tupleRowChildren (f : HForest) (last : Option Char) : List Tup × Option Char :=
  match f with
  | .nil => ([], last)
  | .cons child t =>
    let out := tupleRowChild child last
    let rest := tupleRowChildren t out.2
    (out.1 ++ rest.1, rest.2)
end

/-- `tuple_row(node)` (line 176: `list(tuple_row(body))`). -/
def tuple_row (n : HNode) : List Tup :=
  (tupleRowChildren n.children none).1

/-- `sep.join(items)`. -/
def joinSep (sep : Str) : List Str → Str
  | [] => []
  | [x] => x
  | x :: xs => x ++ sep ++ joinSep sep xs

/-- One table's conversion (lines 199–228): rows are all descendant `tr`s;
the first row's `td`/`th` texts become headers; each later row's `td` texts
(NBSP replaced by spaces) become one line — `Header: Value` pairs joined by
` — ` when the counts agree and headers exist, else the bare cell values so
joined; empty cell lists and falsy lines are skipped. -/
def tableLines (tb : HNode) : List Str :=
  let rows := findAllIn [str "tr"] tb
  match rows with
  | [] => []
  | row0 :: dataRows =>
    let headers := (findAllIn [str "td", str "th"] row0).map get_text_strip
    dataRows.flatMap (fun row =>
      let cells := (findAllIn [str "td"] row).map
        (fun c => (get_text_strip c).map (fun ch => if ch == nbsp then ' ' else ch))
      if cells.isEmpty then []
      else
        let line :=
          if cells.length == headers.length && !headers.isEmpty then
            joinSep (str " — ") ((headers.zip cells).map
              (fun p => p.1 ++ ':' :: ' ' :: p.2))
          else joinSep (str " — ") cells
        if line.isEmpty then [] else [pyStrip line])

/-- The tuples-to-text loop of lines 183–235: headings stripped, breaks and
pauses deduplicated against the immediately preceding tuple type, tables
converted once each (`handled_tables` identity via structural equality),
text stripped and kept when non-empty. -/
def processTuples : List Tup → List HNode → Option TupTyp → List Str
  | [], _, _ => []
  | t :: rest, handled, prev =>
    match t with
    | .heading s => pyStrip s :: processTuples rest handled (some .heading)
    | .brk =>
      if prev ≠ some .brk then BRK :: processTuples rest handled (some .brk)
      else processTuples rest handled (some .brk)
    | .pause =>
      if prev ≠ some .pause then PSE :: processTuples rest handled (some .pause)
      else processTuples rest handled (some .pause)
    | .table tb =>
      if handled.any (hnodeBeq tb) then processTuples rest handled (some .table)
      else tableLines tb ++ processTuples rest (tb :: handled) (some .table)
    | .txt s =>
      let tx := pyStrip s
      if tx.isEmpty then processTuples rest handled (some .txt)
      else tx :: processTuples rest handled (some .txt)

/-- The break-optimization loop of lines 237–275 (`clean` holds the
`clean_list` in reverse): a `‡break‡` after a break/pause is dropped; when
the previous unit ends in an alphanumeric or a space and merging with the
next unit stays within the budget, the two units merge across the break
(with space handling); otherwise the break is kept. -/
def optimizeBreaksGo (maxc : Nat) : Nat → List Str → List Str → List Str
  | _, clean, [] => clean.reverse
  | 0, clean, l => clean.reverse ++ l
  | fuel + 1, clean, current :: rest =>
    if current == BRK then
      match clean with
      | prev :: cp =>
        if prev == BRK || prev == PSE then optimizeBreaksGo maxc fuel clean rest
        else if !prev.isEmpty &&
            (match prev.getLast? with
             | some c => pyIsAlnum c || c == ' '
             | none => false) then
          match rest with
          | next :: rest2 =>
            let merged_length := (pyRStrip prev).length + 1 + (pyLStrip next).length
            if merged_length ≤ maxc then
              let merged :=
                if !(prev.getLast? == some ' ') && !(next.head? == some ' ') then
                  prev ++ ' ' :: next
                else prev ++ next
              optimizeBreaksGo maxc fuel (merged :: cp) rest2
            else optimizeBreaksGo maxc fuel (current :: prev :: cp) rest
          | [] => optimizeBreaksGo maxc fuel (current :: prev :: cp) rest
        else optimizeBreaksGo maxc fuel (current :: prev :: cp) rest
      | [] => optimizeBreaksGo maxc fuel (current :: clean) rest
    else optimizeBreaksGo maxc fuel (current :: clean) rest

/-- Lines 237–275, entry point (the fuel argument of the scanner only bounds
its recursion depth; the list length always suffices since every iteration
consumes at least one item). -/
def optimizeBreaks (maxc : Nat) (l : List Str) : List Str :=
  optimizeBreaksGo maxc l.length [] l

/-- The excluded semantic types of lines 163–167. -/
def EXCLUDED_TYPES : List Str :=
  [str "frontmatter", str "backmatter", str "toc", str "titlepage",
   str "colophon", str "acknowledgments", str "dedication", str "glossary",
   str "index", str "appendix", str "bibliography", str "copyright-page",
   str "landmark"]

/-- Lines 158–162: the body's `epub:type` attribute, lower-cased; when that
is empty, the first `section` element's `epub:type` (also lower-cased),
else the empty string. -/
def resolve_epub_type (doc body : HNode) : Str :=
  let e1 := lowerStr (attrGet body (str "epub:type"))
  if e1.isEmpty then
    match findTag (str "section") doc with
    | some sec => lowerStr (attrGet sec (str "epub:type"))
    | none => []
  else e1

/-- Line 168: `any(part in epub_type for part in excluded)` — note the
containment is a substring test. -/
def excludedMatch (epub_type : Str) : Bool :=
  EXCLUDED_TYPES.any (fun part => isSubstr part epub_type)

/-- Lines 381–389 of `filter_chapter`: after segmentation, a sentence count
of zero prints an error and returns `None` — the same value the `except`
handler at lines 391–394 returns for stage failures — while a non-empty
result is returned as-is (via a second identical `get_sentences` call at
line 389). -/
def filter_chapter_finalize (sentences : List Str) : Option (List Str) :=
  if sentences.length == 0 then none else some sentences

/-- `filter_chapter(doc, lang, lang_iso1, tts_engine, stanza_nlp,
is_num2words_compat)` (processor.py lines 24–394).  The document is the
already-parsed markup tree (lines 151–152 decode and parse the raw HTML);
`dateStage` stands for the optional Stanza-driven date/number stage of lines
286–363 (external NLP and num2words collaborators), `none` when `stanza_nlp`
is `None`.  The exclusion checks return `some []`; a missing or text-less
body returns `some []`; an empty tuple extraction returns `none`; and the
`text = roman2number(text)` re-binding at line 366 makes every later stage
unreachable: `roman2number` returns `int | None`, `clock2words` (line 369)
then calls `re.sub` on that non-string value, `re` raises `TypeError`, and
the `except` handler at lines 391–394 returns `None` — so the normalizer,
segmenter and the zero-sentence check of lines 368–389 are dead code on
every path that reaches line 366. -/
def filter_chapter (doc : HNode) (lang : Str) (_lang_iso1 _tts_engine : Str)
    (dateStage : Option (Str → Str)) (_is_num2words_compat : Bool) :
    Option (List Str) :=
  match findTag (str "body") doc with
  | none => some []
  | some body =>
    if (get_text_strip body).isEmpty then some []
    else
      let epub_type := resolve_epub_type doc body
      if excludedMatch epub_type then some []
      else
        let body2 := decompose body
        let tuples := tuple_row body2
        if tuples.isEmpty then none
        else
          let text_list := processTuples tuples [] none
          match language_mapping_max_chars lang with
          | none => none
          | some mc =>
            let maxc := mc - 4
            let clean_list := optimizeBreaks maxc text_list
            let text := joinSpace clean_list
            if !hasAlnum text then none
            else
              let text1 := match dateStage with
                | some f => f text
                | none => text
              let romanized := roman2number text1
              let _ := romanized
              none


/-! ## Lemmas: strings, markers, infixes -/

/-- A string free of both marker substrings. -/
def markerFree (u : Str) : Prop := ¬ (BRK <:+: u) ∧ ¬ (PSE <:+: u)

theorem pyStrip_within (s : Str) : pyStrip s <:+: s := by
  unfold pyStrip
  have h1 : s.dropWhile pyIsSpace <:+ s := List.dropWhile_suffix _
  have h2 : (s.dropWhile pyIsSpace).reverse.dropWhile pyIsSpace <:+
      (s.dropWhile pyIsSpace).reverse := List.dropWhile_suffix _
  have h3 : ((s.dropWhile pyIsSpace).reverse.dropWhile pyIsSpace).reverse <+:
      s.dropWhile pyIsSpace := by
    have := List.reverse_prefix.mpr h2
    simpa using this
  exact h3.isInfix.trans h1.isInfix

theorem mem_pyStrip {c : Char} {s : Str} (h : c ∈ pyStrip s) : c ∈ s :=
  (pyStrip_within s).subset h

theorem length_pyStrip_le (s : Str) : (pyStrip s).length ≤ s.length :=
  (pyStrip_within s).length_le

theorem markerFree_nil : markerFree ([] : Str) :=
  ⟨fun h => absurd (List.infix_nil.mp h) (by decide),
   fun h => absurd (List.infix_nil.mp h) (by decide)⟩

theorem markerFree_within {u v : Str} (huv : u <:+: v) (hv : markerFree v) :
    markerFree u :=
  ⟨fun h => hv.1 (h.trans huv), fun h => hv.2 (h.trans huv)⟩

theorem mf_not_marker {u : Str} (h : markerFree u) : isMarker u = false := by
  unfold isMarker
  simp only [Bool.or_eq_false_iff, beq_eq_false_iff_ne, ne_eq]
  constructor
  · intro he; exact h.1 (he ▸ List.infix_refl u)
  · intro he; exact h.2 (he ▸ List.infix_refl u)

theorem markerFree_pyStrip {s : Str} (h : markerFree s) : markerFree (pyStrip s) :=
  markerFree_within (pyStrip_within s) h

theorem prefix_append_sep {m a b : Str} {c : Char} (hc : c ∉ m)
    (h : m <+: a ++ c :: b) : m <+: a := by
  rcases le_or_lt m.length a.length with hl | hl
  · have h1 := List.prefix_iff_eq_take.mp h
    rw [List.take_append_of_le_length hl] at h1
    exact h1 ▸ List.take_prefix _ _
  · exfalso
    have hac : a ++ [c] <+: a ++ c :: b := ⟨b, by simp⟩
    have h2 : a ++ [c] <+: m :=
      List.prefix_of_prefix_length_le hac h (by simp; omega)
    exact hc (h2.subset (by simp))

theorem within_append_sep {m : Str} {c : Char} (hc : c ∉ m) :
    ∀ a b : Str, m <:+: a ++ c :: b → m <:+: a ∨ m <:+: b := by
  intro a
  induction a with
  | nil =>
    intro b h
    rw [List.nil_append] at h
    rcases List.infix_cons_iff.mp h with hp | hi
    · rcases m with _ | ⟨x, m2⟩
      · exact Or.inl List.nil_infix
      · obtain ⟨t, ht⟩ := hp
        rw [List.cons_append] at ht
        injection ht with h1 _
        subst h1
        exact absurd (List.mem_cons_self x m2) hc
    · exact Or.inr hi
  | cons x a2 ih =>
    intro b h
    rcases List.infix_cons_iff.mp h with hp | hi
    · left
      have h2 : m <+: (x :: a2) ++ c :: b := by simpa using hp
      exact (prefix_append_sep hc h2).isInfix
    · rcases ih b hi with h1 | h2
      · exact Or.inl (List.infix_cons h1)
      · exact Or.inr h2

theorem markerFree_append_space {a b : Str} (ha : markerFree a) (hb : markerFree b) :
    markerFree (a ++ ' ' :: b) := by
  constructor
  · intro h
    rcases within_append_sep (by decide : ' ' ∉ BRK) a b h with h1 | h2
    exacts [ha.1 h1, hb.1 h2]
  · intro h
    rcases within_append_sep (by decide : ' ' ∉ PSE) a b h with h1 | h2
    exacts [ha.2 h1, hb.2 h2]


theorem smlSplitGo_ne_nil : ∀ (fuel : Nat) (s : Str), smlSplitGo fuel s ≠ []
  | _, [] => by simp [smlSplitGo]
  | 0, _ :: _ => by simp [smlSplitGo]
  | _ + 1, c :: cs => by
    unfold smlSplitGo
    split
    · simp
    · split
      · simp
      · split <;> simp

/-- The elements of the marker split are the two markers or marker-free
segments, and the leading segment is a marker-free prefix of the input. -/
theorem smlSplitGo_inv : ∀ (fuel : Nat) (s : Str), s.length ≤ fuel →
    (∀ u ∈ smlSplitGo fuel s, u = BRK ∨ u = PSE ∨ markerFree u) ∧
    (∀ hd tl, smlSplitGo fuel s = hd :: tl → markerFree hd ∧ hd <+: s)
  | fuel, [], _ => by
    refine ⟨?_, ?_⟩
    · intro u hu
      simp [smlSplitGo] at hu
      subst hu
      exact Or.inr (Or.inr markerFree_nil)
    · intro hd tl h
      simp [smlSplitGo] at h
      exact ⟨h.1 ▸ markerFree_nil, h.1 ▸ List.nil_prefix⟩
  | 0, c :: cs, hlen => by
    simp at hlen
  | fuel + 1, c :: cs, hlen => by
    have hBlen : BRK.length = 7 := rfl
    have hPlen : PSE.length = 7 := rfl
    unfold smlSplitGo
    by_cases hB : BRK.isPrefixOf (c :: cs) = true
    · rw [if_pos hB]
      have hdrop : ((c :: cs).drop BRK.length).length ≤ fuel := by
        rw [List.length_drop, hBlen, List.length_cons]
        simp at hlen
        omega
      have ih := smlSplitGo_inv fuel ((c :: cs).drop BRK.length) hdrop
      refine ⟨?_, ?_⟩
      · intro u hu
        rcases List.mem_cons.mp hu with rfl | hu2
        · exact Or.inr (Or.inr markerFree_nil)
        · rcases List.mem_cons.mp hu2 with rfl | hu3
          · exact Or.inl rfl
          · exact ih.1 u hu3
      · intro hd tl h
        injection h with h1 _
        exact ⟨h1 ▸ markerFree_nil, h1 ▸ List.nil_prefix⟩
    · rw [if_neg hB]
      by_cases hP : PSE.isPrefixOf (c :: cs) = true
      · rw [if_pos hP]
        have hdrop : ((c :: cs).drop PSE.length).length ≤ fuel := by
          rw [List.length_drop, hPlen, List.length_cons]
          simp at hlen
          omega
        have ih := smlSplitGo_inv fuel ((c :: cs).drop PSE.length) hdrop
        refine ⟨?_, ?_⟩
        · intro u hu
          rcases List.mem_cons.mp hu with rfl | hu2
          · exact Or.inr (Or.inr markerFree_nil)
          · rcases List.mem_cons.mp hu2 with rfl | hu3
            · exact Or.inr (Or.inl rfl)
            · exact ih.1 u hu3
        · intro hd tl h
          injection h with h1 _
          exact ⟨h1 ▸ markerFree_nil, h1 ▸ List.nil_prefix⟩
      · rw [if_neg hP]
        have hcs : cs.length ≤ fuel := by simp at hlen; omega
        have ih := smlSplitGo_inv fuel cs hcs
        rcases hrec : smlSplitGo fuel cs with _ | ⟨seg, rest⟩
        · exact absurd hrec (smlSplitGo_ne_nil fuel cs)
        · have hseg := ih.2 seg rest hrec
          have hhead : markerFree (c :: seg) := by
            constructor
            · intro hin
              rcases List.infix_cons_iff.mp hin with hp | hi
              · have : BRK <+: c :: cs :=
                  hp.trans (List.cons_prefix_cons.mpr ⟨rfl, hseg.2⟩)
                exact hB (List.isPrefixOf_iff_prefix.mpr this)
              · exact hseg.1.1 hi
            · intro hin
              rcases List.infix_cons_iff.mp hin with hp | hi
              · have : PSE <+: c :: cs :=
                  hp.trans (List.cons_prefix_cons.mpr ⟨rfl, hseg.2⟩)
                exact hP (List.isPrefixOf_iff_prefix.mpr this)
              · exact hseg.1.2 hi
          refine ⟨?_, ?_⟩
          · intro u hu
            rcases List.mem_cons.mp hu with rfl | hu2
            · exact Or.inr (Or.inr hhead)
            · exact ih.1 u (hrec ▸ List.mem_cons_of_mem seg hu2)
          · intro hd tl h
            injection h with h1 _
            refine ⟨h1 ▸ hhead, h1 ▸ ?_⟩
            exact List.cons_prefix_cons.mpr ⟨rfl, hseg.2⟩

/-- `smlSplit` facts at the standard fuel. -/
theorem smlSplit_inv (s : Str) :
    ∀ u ∈ smlSplit s, u = BRK ∨ u = PSE ∨ markerFree u :=
  (smlSplitGo_inv s.length s le_rfl).1


/-- Every piece produced by the inclusive splitter is an infix of the text
scanned so far (`acc` reversed, then the remaining input). -/
theorem splitInclusiveGo_within (puncts : List Char) :
    ∀ (s acc : Str), ∀ p ∈ splitInclusiveGo puncts acc s, p <:+: acc.reverse ++ s
  | [], acc => by
    intro p hp
    unfold splitInclusiveGo at hp
    rcases hst : pyStrip acc.reverse with _ | ⟨x, xs⟩
    · rw [hst] at hp
      simp at hp
    · rw [hst] at hp
      simp at hp
      subst hp
      have h0 := pyStrip_within acc.reverse
      rw [hst] at h0
      simpa using h0
  | c :: cs, acc => by
    intro p hp
    unfold splitInclusiveGo at hp
    split at hp
    · rcases List.mem_cons.mp hp with rfl | hmem
      · have h1 : acc.reverse ++ [c] <+: acc.reverse ++ c :: cs := ⟨cs, by simp⟩
        exact (pyStrip_within (acc.reverse ++ [c])).trans h1.isInfix
      · have h2 := splitInclusiveGo_within puncts cs [] p hmem
        simp only [List.reverse_nil, List.nil_append] at h2
        have h3 : cs <:+ acc.reverse ++ c :: cs := by
          refine ⟨acc.reverse ++ [c], by simp⟩
        exact h2.trans h3.isInfix
    · have h2 := splitInclusiveGo_within puncts cs (c :: acc) p hp
      simpa [List.reverse_cons, List.append_assoc] using h2

/-- `split_inclusive` produces infixes of the input. -/
theorem splitInclusive_within {puncts : List Char} {s p : Str}
    (hp : p ∈ splitInclusive puncts s) : p <:+: s := by
  have := splitInclusiveGo_within puncts s [] p hp
  simpa using this

theorem pySplitChar_ne_nil (sep : Char) : ∀ (s : Str), pySplitChar sep s ≠ []
  | [] => by simp [pySplitChar]
  | c :: cs => by
    unfold pySplitChar
    split
    · simp
    · split <;> simp

/-- Every field of a single-character split is an infix of the input, and no
field contains the separator; the head field is a prefix. -/
theorem pySplitChar_inv (sep : Char) : ∀ (s : Str),
    (∀ u ∈ pySplitChar sep s, u <:+: s ∧ sep ∉ u) ∧
    (∀ hd tl, pySplitChar sep s = hd :: tl → hd <+: s ∧ sep ∉ hd)
  | [] => by
    refine ⟨?_, ?_⟩
    · intro u hu
      simp [pySplitChar] at hu
      subst hu
      exact ⟨List.nil_infix, by simp⟩
    · intro hd tl h
      simp [pySplitChar] at h
      exact ⟨h.1 ▸ List.nil_prefix, h.1 ▸ (by simp)⟩
  | c :: cs => by
    have ih := pySplitChar_inv sep cs
    unfold pySplitChar
    by_cases hc : c = sep
    · rw [if_pos hc]
      refine ⟨?_, ?_⟩
      · intro u hu
        rcases List.mem_cons.mp hu with rfl | hu2
        · exact ⟨List.nil_infix, by simp⟩
        · have h2 := ih.1 u hu2
          exact ⟨List.infix_cons h2.1, h2.2⟩
      · intro hd tl h
        injection h with h1 _
        exact ⟨h1 ▸ List.nil_prefix, h1 ▸ (by simp)⟩
    · rw [if_neg hc]
      rcases hrec : pySplitChar sep cs with _ | ⟨seg, rest⟩
      · exact absurd hrec (pySplitChar_ne_nil sep cs)
      · have hseg := ih.2 seg rest hrec
        refine ⟨?_, ?_⟩
        · intro u hu
          rcases List.mem_cons.mp hu with rfl | hu2
          · refine ⟨(List.cons_prefix_cons.mpr ⟨rfl, hseg.1⟩).isInfix, ?_⟩
            intro hmem
            rcases List.mem_cons.mp hmem with rfl | h3
            · exact hc rfl
            · exact hseg.2 h3
          · have h2 := ih.1 u (hrec ▸ List.mem_cons_of_mem seg hu2)
            exact ⟨List.infix_cons h2.1, h2.2⟩
        · intro hd tl h
          injection h with h1 _
          subst h1
          refine ⟨List.cons_prefix_cons.mpr ⟨rfl, hseg.1⟩, ?_⟩
          intro hmem
          rcases List.mem_cons.mp hmem with rfl | h3
          · exact hc rfl
          · exact hseg.2 h3


/-- The marker invariant carried through the splitter stages: every element
is a marker or marker-free. -/
def MInv (l : List Str) : Prop := ∀ u ∈ l, u = BRK ∨ u = PSE ∨ markerFree u

/-- A stage that maps markers to themselves and marker-free items to
marker-free lists leaves the marker subsequence untouched. -/
theorem flatMap_filter_isMarker {l : List Str} {f : Str → List Str}
    (hm : ∀ u ∈ l, isMarker u = true → f u = [u])
    (hn : ∀ u ∈ l, isMarker u = false → ∀ v ∈ f u, isMarker v = false) :
    (l.flatMap f).filter isMarker = l.filter isMarker := by
  induction l with
  | nil => simp
  | cons x xs ih =>
    have ih2 := ih (fun u hu => hm u (List.mem_cons_of_mem x hu))
      (fun u hu => hn u (List.mem_cons_of_mem x hu))
    rw [List.flatMap_cons, List.filter_append, List.filter_cons, ih2]
    cases hx : isMarker x with
    | true =>
      rw [hm x (List.mem_cons_self x xs) hx]
      simp [hx]
    | false =>
      have hnil : (f x).filter isMarker = [] :=
        List.filter_eq_nil_iff.mpr
          (fun v hv => by simp [hn x (List.mem_cons_self x xs) hx v hv])
      rw [hnil]
      simp [hx]

/-- A filter that keeps every marker leaves the marker subsequence
untouched. -/
theorem filter_filter_isMarker {l : List Str} {pred : Str → Bool}
    (hm : ∀ u ∈ l, isMarker u = true → pred u = true) :
    (l.filter pred).filter isMarker = l.filter isMarker := by
  rw [List.filter_filter]
  apply List.filter_congr
  intro u hu
  cases hx : isMarker u with
  | true => simp [hm u hu hx]
  | false => simp

/-- The stage-1 filter keeps both markers. -/
theorem smlStage_filter (text : Str) :
    (smlStage text).filter isMarker = (smlSplit text).filter isMarker := by
  unfold smlStage
  apply filter_filter_isMarker
  intro u _ hu
  simp [hu]

theorem smlStage_MInv (text : Str) : MInv (smlStage text) := by
  intro u hu
  exact smlSplit_inv text u (List.mem_of_mem_filter hu)

/-- Marker-freeness of the backtracking buffer loop: with a marker-free
buffer and marker-free parts, every flushed unit and the final buffer are
marker-free. -/
theorem softAssemble_mf (maxc : Nat) (soft : List Char) :
    ∀ (parts : List Str) (buffer : Str), markerFree buffer →
      (∀ p ∈ parts, markerFree p) →
      (∀ e ∈ (softAssemble maxc soft buffer parts).1, markerFree e) ∧
        markerFree (softAssemble maxc soft buffer parts).2
  | [], buffer, hb, _ => by
    refine ⟨?_, ?_⟩
    · intro e he
      simp [softAssemble] at he
    · simpa [softAssemble] using hb
  | part :: rest, buffer, hb, hp => by
    have hpart : markerFree part := hp part (List.mem_cons_self part rest)
    have hrest : ∀ p ∈ rest, markerFree p :=
      fun p h => hp p (List.mem_cons_of_mem part h)
    unfold softAssemble
    dsimp only
    by_cases h1 :
        buffer.length + (if buffer.isEmpty = true then 0 else 1) + part.length ≤ maxc
    · rw [if_pos h1]
      apply softAssemble_mf maxc soft rest
      · by_cases h2 : buffer.isEmpty = true
        · rw [if_pos h2]; exact hpart
        · rw [if_neg h2]; exact markerFree_pyStrip (markerFree_append_space hb hpart)
      · exact hrest
    · rw [if_neg h1]
      by_cases h2 : (!buffer.isEmpty && !endsWithSoft soft buffer) = true
      · rw [if_pos h2]
        rcases hidx : lastSoftIdx soft buffer with _ | i
        · have ih := softAssemble_mf maxc soft rest part hpart hrest
          refine ⟨?_, ih.2⟩
          intro e he
          rcases List.mem_cons.mp he with rfl | he2
          · exact markerFree_pyStrip hb
          · exact ih.1 e he2
        · have hkeep : markerFree (pyStrip (buffer.take (i + 1))) :=
            markerFree_pyStrip
              (markerFree_within (List.take_prefix _ _).isInfix hb)
          have hleft : markerFree (pyStrip (buffer.drop (i + 1))) :=
            markerFree_pyStrip
              (markerFree_within (List.drop_suffix _ _).isInfix hb)
          have hbuf2 : markerFree
              (if (pyStrip (buffer.drop (i + 1))).isEmpty = true then part
               else pyStrip (buffer.drop (i + 1)) ++ ' ' :: part) := by
            by_cases h3 : (pyStrip (buffer.drop (i + 1))).isEmpty = true
            · rw [if_pos h3]; exact hpart
            · rw [if_neg h3]; exact markerFree_append_space hleft hpart
          have ih := softAssemble_mf maxc soft rest _ hbuf2 hrest
          refine ⟨?_, ih.2⟩
          intro e he
          rcases List.mem_cons.mp he with rfl | he2
          · exact hkeep
          · exact ih.1 e he2
      · rw [if_neg h2]
        have ih := softAssemble_mf maxc soft rest part hpart hrest
        refine ⟨?_, ih.2⟩
        intro e he
        rcases List.mem_cons.mp he with rfl | he2
        · exact markerFree_pyStrip hb
        · exact ih.1 e he2


/-- Marker-freeness of the word-accumulation loop. -/
theorem assembleWords_mf (maxc : Nat) :
    ∀ (ws : List Str) (tp : Str), markerFree tp → (∀ w ∈ ws, markerFree w) →
      ∀ u ∈ assembleWords maxc tp ws, markerFree u
  | [], tp, htp, _ => by
    intro u hu
    unfold assembleWords at hu
    split at hu
    · rcases List.mem_singleton.mp hu with rfl
      exact htp
    · simp at hu
  | w :: ws, tp, htp, hws => by
    intro u hu
    have hw : markerFree w := hws w (List.mem_cons_self w ws)
    have hws2 : ∀ x ∈ ws, markerFree x := fun x h => hws x (List.mem_cons_of_mem w h)
    unfold assembleWords at hu
    split at hu
    · exact assembleWords_mf maxc ws (tp ++ ' ' :: w)
        (markerFree_append_space htp hw) hws2 u hu
    · rcases List.mem_append.mp hu with h1 | h2
      · have : u = pyStrip tp := by
          rcases h3 : (pyStrip tp).isEmpty with _ | _ <;> rw [h3] at h1 <;> simp at h1
          · exact h1
        exact this ▸ markerFree_pyStrip htp
      · exact assembleWords_mf maxc ws w hw hws2 u h2

/-- Length/space discipline of the word-accumulation loop: every emitted
unit fits the budget or contains no space. -/
theorem assembleWords_fits (maxc : Nat) :
    ∀ (ws : List Str) (tp : Str), (tp.length ≤ maxc ∨ ' ' ∉ tp) →
      (∀ w ∈ ws, ' ' ∉ w) →
      ∀ u ∈ assembleWords maxc tp ws, u.length ≤ maxc ∨ ' ' ∉ u
  | [], tp, htp, _ => by
    intro u hu
    unfold assembleWords at hu
    split at hu
    · rcases List.mem_singleton.mp hu with rfl
      exact htp
    · simp at hu
  | w :: ws, tp, htp, hws => by
    intro u hu
    have hw : ' ' ∉ w := hws w (List.mem_cons_self w ws)
    have hws2 : ∀ x ∈ ws, ' ' ∉ x := fun x h => hws x (List.mem_cons_of_mem w h)
    unfold assembleWords at hu
    split at hu
    · next hfit =>
      refine assembleWords_fits maxc ws (tp ++ ' ' :: w) ?_ hws2 u hu
      left
      simp only [List.length_append, List.length_cons]
      omega
    · rcases List.mem_append.mp hu with h1 | h2
      · have heq : u = pyStrip tp := by
          rcases h3 : (pyStrip tp).isEmpty with _ | _ <;> rw [h3] at h1 <;> simp at h1
          · exact h1
        subst heq
        rcases htp with hl | hn
        · exact Or.inl (le_trans (length_pyStrip_le tp) hl)
        · exact Or.inr (fun hmem => hn (mem_pyStrip hmem))
      · exact assembleWords_fits maxc ws w (Or.inr hw) hws2 u h2


theorem hardStage_mf_out {maxc : Nat} {hard : List Char} {s u : Str}
    (hs : markerFree s) (hm : isMarker s = false)
    (hu : u ∈ (if isMarker s || s.length ≤ maxc then [s]
      else
        match splitInclusive hard s with
        | [] => (match pyStrip s with
                 | [] => []
                 | t => [t])
        | parts => parts.filterMap (fun p =>
            match pyStrip p with
            | [] => none
            | t => some t))) : markerFree u := by
  split at hu
  · rcases List.mem_singleton.mp hu with rfl
    exact hs
  · rcases hsp : splitInclusive hard s with _ | ⟨p0, ps⟩
    · rw [hsp] at hu
      rcases hst : pyStrip s with _ | ⟨x, xs⟩ <;> rw [hst] at hu <;> simp at hu
      subst hu
      exact hst ▸ markerFree_pyStrip hs
    · rw [hsp] at hu
      obtain ⟨q, hq, hqe⟩ := List.mem_filterMap.mp hu
      have hq2 : q ∈ splitInclusive hard s := hsp ▸ List.mem_cons.mpr (by
        rcases List.mem_cons.mp hq with rfl | h
        · exact Or.inl rfl
        · exact Or.inr h)
      have hqmf : markerFree q := markerFree_within (splitInclusive_within hq2) hs
      rcases hst : pyStrip q with _ | ⟨x, xs⟩ <;> rw [hst] at hqe <;> simp at hqe
      subst hqe
      exact hst ▸ markerFree_pyStrip hqmf

theorem hardStage_props {maxc : Nat} {hard : List Char} {l : List Str}
    (hl : MInv l) :
    MInv (hardStage maxc hard l) ∧
      (hardStage maxc hard l).filter isMarker = l.filter isMarker := by
  have hmf : ∀ s ∈ l, isMarker s = false → markerFree s := by
    intro s hs hfalse
    rcases hl s hs with rfl | rfl | h
    · simp [isMarker] at hfalse
    · simp [isMarker] at hfalse
    · exact h
  constructor
  · intro u hu
    obtain ⟨a, ha, hua⟩ := List.mem_flatMap.mp hu
    rcases hl a ha with rfl | rfl | hamf
    · rw [if_pos (by simp [isMarker])] at hua
      rcases List.mem_singleton.mp hua with rfl
      exact Or.inl rfl
    · rw [if_pos (by simp [isMarker])] at hua
      rcases List.mem_singleton.mp hua with rfl
      exact Or.inr (Or.inl rfl)
    · by_cases hmk : isMarker a = true
      · rw [if_pos (by simp [hmk])] at hua
        rcases List.mem_singleton.mp hua with rfl
        exact Or.inr (Or.inr hamf)
      · exact Or.inr (Or.inr
          (hardStage_mf_out hamf (by simpa using hmk) hua))
  · apply flatMap_filter_isMarker
    · intro u _ hu
      simp [hu]
    · intro u humem hu v hv
      exact mf_not_marker (hardStage_mf_out (hmf u humem hu) hu hv)


theorem softStage_mf_out {maxc : Nat} {soft : List Char} {s u : Str}
    (hs : markerFree s)
    (hu : u ∈ (if isMarker s || s.length ≤ maxc then [s]
      else
        match (splitInclusive soft s).filter (fun p => !p.isEmpty) with
        | [] => if hasAlnum (cleanNonAlnum s) then [pyStrip s] else []
        | parts =>
          let out := softAssemble maxc soft [] parts
          out.1 ++
            (if !out.2.isEmpty && hasAlnum (cleanNonAlnum out.2)
             then [pyStrip out.2] else []))) : markerFree u := by
  split at hu
  · rcases List.mem_singleton.mp hu with rfl
    exact hs
  · rcases hsp : (splitInclusive soft s).filter (fun p => !p.isEmpty)
        with _ | ⟨p0, ps⟩
    · rw [hsp] at hu
      dsimp only at hu
      by_cases hA : hasAlnum (cleanNonAlnum s) = true
      · rw [if_pos hA] at hu
        rcases List.mem_singleton.mp hu with rfl
        exact markerFree_pyStrip hs
      · rw [if_neg hA] at hu
        simp at hu
    · rw [hsp] at hu
      have hparts : ∀ p ∈ p0 :: ps, markerFree p := by
        intro p hp
        have : p ∈ splitInclusive soft s :=
          List.mem_of_mem_filter (hsp ▸ hp)
        exact markerFree_within (splitInclusive_within this) hs
      have hsa := softAssemble_mf maxc soft (p0 :: ps) [] markerFree_nil hparts
      dsimp only at hu
      rcases List.mem_append.mp hu with h1 | h2
      · exact hsa.1 u h1
      · split at h2
        · rcases List.mem_singleton.mp h2 with rfl
          exact markerFree_pyStrip hsa.2
        · simp at h2

theorem softStage_props {maxc : Nat} {soft : List Char} {l : List Str}
    (hl : MInv l) :
    MInv (softStage maxc soft l) ∧
      (softStage maxc soft l).filter isMarker = l.filter isMarker := by
  have hmf : ∀ s ∈ l, isMarker s = false → markerFree s := by
    intro s hs hfalse
    rcases hl s hs with rfl | rfl | h
    · simp [isMarker] at hfalse
    · simp [isMarker] at hfalse
    · exact h
  constructor
  · intro u hu
    obtain ⟨a, ha, hua⟩ := List.mem_flatMap.mp hu
    rcases hl a ha with rfl | rfl | hamf
    · rw [if_pos (by simp [isMarker])] at hua
      rcases List.mem_singleton.mp hua with rfl
      exact Or.inl rfl
    · rw [if_pos (by simp [isMarker])] at hua
      rcases List.mem_singleton.mp hua with rfl
      exact Or.inr (Or.inl rfl)
    · exact Or.inr (Or.inr (softStage_mf_out hamf hua))
  · apply flatMap_filter_isMarker
    · intro u _ hu
      simp [hu]
    · intro u humem hu v hv
      exact mf_not_marker (softStage_mf_out (hmf u humem hu) hv)

theorem wordStage_mf_out {maxc : Nat} {s u : Str}
    (hs : markerFree s)
    (hu : u ∈ (if isMarker s || s.length ≤ maxc then [s]
      else
        match pySplitChar ' ' s with
        | [] => []
        | w :: ws => assembleWords maxc w ws)) : markerFree u := by
  split at hu
  · rcases List.mem_singleton.mp hu with rfl
    exact hs
  · rcases hsp : pySplitChar ' ' s with _ | ⟨w, ws⟩
    · rw [hsp] at hu; simp at hu
    · rw [hsp] at hu
      have hall : ∀ x ∈ w :: ws, markerFree x := by
        intro x hx
        exact markerFree_within ((pySplitChar_inv ' ' s).1 x (hsp ▸ hx)).1 hs
      exact assembleWords_mf maxc ws w (hall w (List.mem_cons_self w ws))
        (fun x hx => hall x (List.mem_cons_of_mem w hx)) u hu

theorem wordStage_props {maxc : Nat} {l : List Str} (hl : MInv l) :
    MInv (wordStage maxc l) ∧
      (wordStage maxc l).filter isMarker = l.filter isMarker := by
  have hmf : ∀ s ∈ l, isMarker s = false → markerFree s := by
    intro s hs hfalse
    rcases hl s hs with rfl | rfl | h
    · simp [isMarker] at hfalse
    · simp [isMarker] at hfalse
    · exact h
  constructor
  · intro u hu
    obtain ⟨a, ha, hua⟩ := List.mem_flatMap.mp hu
    rcases hl a ha with rfl | rfl | hamf
    · rw [if_pos (by simp [isMarker])] at hua
      rcases List.mem_singleton.mp hua with rfl
      exact Or.inl rfl
    · rw [if_pos (by simp [isMarker])] at hua
      rcases List.mem_singleton.mp hua with rfl
      exact Or.inr (Or.inl rfl)
    · exact Or.inr (Or.inr (wordStage_mf_out hamf hua))
  · apply flatMap_filter_isMarker
    · intro u _ hu
      simp [hu]
    · intro u humem hu v hv
      exact mf_not_marker (wordStage_mf_out (hmf u humem hu) hv)

/-- Every non-marker unit of the final alphabetic stage fits the budget or
is a single space-free word — independently of what earlier stages
produced. -/
theorem wordStage_fits {maxc : Nat} {l : List Str} :
    ∀ u ∈ wordStage maxc l, isMarker u = true ∨ u.length ≤ maxc ∨ ' ' ∉ u := by
  intro u hu
  obtain ⟨a, ha, hua⟩ := List.mem_flatMap.mp hu
  revert hua
  show u ∈ (if isMarker a || a.length ≤ maxc then [a]
      else
        match pySplitChar ' ' a with
        | [] => []
        | w :: ws => assembleWords maxc w ws) → _
  intro hua
  split at hua
  · next hcond =>
    rcases List.mem_singleton.mp hua with rfl
    rcases Bool.or_eq_true_iff.mp hcond with h1 | h2
    · exact Or.inl h1
    · exact Or.inr (Or.inl (by simpa using h2))
  · rcases hsp : pySplitChar ' ' a with _ | ⟨w, ws⟩
    · rw [hsp] at hua; simp at hua
    · rw [hsp] at hua
      have hall : ∀ x ∈ w :: ws, ' ' ∉ x := by
        intro x hx
        exact ((pySplitChar_inv ' ' a).1 x (hsp ▸ hx)).2
      exact Or.inr (assembleWords_fits maxc ws w
        (Or.inr (hall w (List.mem_cons_self w ws)))
        (fun x hx => hall x (List.mem_cons_of_mem w hx)) u hua)


/-- Every unit emitted by the ideogrammatic buffer assembly fits the budget,
is one of the input tokens, or is the initial buffer. -/
theorem join_ideogramms_mem (maxc : Nat) :
    ∀ (l : List Str) (buffer : Str), ∀ u ∈ join_ideogramms maxc buffer l,
      u.length ≤ maxc ∨ u ∈ l ∨ u = buffer
  | [], buffer => by
    intro u hu
    unfold join_ideogramms at hu
    split at hu
    · simp at hu
    · rcases List.mem_singleton.mp hu with rfl
      exact Or.inr (Or.inr rfl)
  | tok :: rest, buffer => by
    intro u hu
    unfold join_ideogramms at hu
    by_cases h1 : isMarker (pyStrip tok) = true
    · rw [if_pos h1] at hu
      rcases List.mem_append.mp hu with ha | hb
      · split at ha
        · simp at ha
        · rcases List.mem_singleton.mp ha with rfl
          exact Or.inr (Or.inr rfl)
      · rcases List.mem_cons.mp hb with rfl | hc
        · exact Or.inr (Or.inl (List.mem_cons_self _ _))
        · rcases join_ideogramms_mem maxc rest [] u hc with h | h | h
          · exact Or.inl h
          · exact Or.inr (Or.inl (List.mem_cons_of_mem _ h))
          · subst h
            exact Or.inl (by simp)
    · rw [if_neg h1] at hu
      by_cases h2 : (!buffer.isEmpty && decide (maxc < buffer.length + tok.length)) = true
      · rw [if_pos h2] at hu
        rcases List.mem_cons.mp hu with rfl | hc
        · exact Or.inr (Or.inr rfl)
        · rcases join_ideogramms_mem maxc rest tok u hc with h | h | h
          · exact Or.inl h
          · exact Or.inr (Or.inl (List.mem_cons_of_mem _ h))
          · subst h
            exact Or.inr (Or.inl (List.mem_cons_self _ _))
      · rw [if_neg h2] at hu
        rcases join_ideogramms_mem maxc rest (buffer ++ tok) u hu with h | h | h
        · exact Or.inl h
        · exact Or.inr (Or.inl (List.mem_cons_of_mem _ h))
        · subst h
          by_cases hbe : buffer.isEmpty = true
          · have hbnil : buffer = [] := List.isEmpty_iff.mp hbe
            subst hbnil
            exact Or.inr (Or.inl (by simp))
          · left
            have hbe2 : buffer.isEmpty = false := by simpa using hbe
            have hlt : ¬ maxc < buffer.length + tok.length := by
              intro hlt
              exact h2 (by simp [hbe2, hlt])
            simp only [List.length_append]
            omega

/-! ## Fixture documents for the processor claims -/

/-- Build a forest from a list of nodes. -/
def hforest : List HNode → HForest
  | [] => .nil
  | h :: t => .cons h (hforest t)

/-- The end-to-end scenario chapter:
`<body><p>Chapter 1. The year was 1984. At 14:30, 2 + 2 = 4.</p></body>`. -/
def docEndToEnd : HNode :=
  .tag (str "html") [] (hforest [.tag (str "body") [] (hforest
    [.tag (str "p") [] (hforest
      [.text (str "Chapter 1. The year was 1984. At 14:30, 2 + 2 = 4.")])])])

/-- The body of `docTocChapter`, tagged `epub:type="toc"`. -/
def tocBody : HNode :=
  .tag (str "body") [(str "epub:type", str "toc")] (hforest
    [.tag (str "p") [] (hforest [.text (str "Contents 1 2 3")])])

/-- A chapter whose body is tagged as a table of contents. -/
def docTocChapter : HNode := .tag (str "html") [] (hforest [tocBody])

/-- A document without any `body` element. -/
def docNoBodyNode : HNode := .tag (str "html") [] (hforest [])


/-! ## Claim theorems -/

/-- C1: `roman2number` decodes case-insensitive roman numerals subtractively
— but it maps a whole string to an **integer** (`int | None`), not to text
with in-place replacements: `roman2number("XIV")` is the integer 14 (not the
string `"14"`), and any input containing a non-numeral character — which the
claim says passes through unchanged — yields `None` instead of text. -/
theorem claim1_roman_returns_int :
    roman2number (str "XIV") = some 14
    ∧ roman2number (str "MCMXC") = some 1990
    ∧ roman2number (str "xiv") = some 14
    ∧ roman2number (str "Chapter XIV of the book") = none
    ∧ roman2number (str "ABC") = none := by
  exact ⟨by decide, by decide, by decide, by decide, by decide⟩

/-- C2: the full pipeline on the end-to-end scenario chapter returns `None`
(the failure signal), not a sentence sequence: line 366 re-binds `text` to
`roman2number(text)` (an `int | None`), the following `clock2words` call
raises on the non-string value, and the `except` handler returns `None`. -/
theorem claim2_pipeline_returns_none :
    filter_chapter docEndToEnd (str "eng") (str "en") (str "xtts") none true
      = none := by decide

set_option maxRecDepth 1000000 in
/-- C3 counterexample: for the modelled English profile
(`max_chars = 250`), a chapter text consisting of one 300-character word is
returned by `get_sentences` as an element of length 300 — a non-marker
element exceeding the `max_chars` budget (the word-stage emits unsplittable
single words whole). -/
theorem claim3_counterexample :
    get_sentences (fun s => [s]) (List.replicate 300 'a') (str "eng")
        = some [[], List.replicate 300 'a']
    ∧ language_mapping_max_chars (str "eng") = some 250
    ∧ isMarker (List.replicate 300 'a') = false
    ∧ ¬ (List.replicate 300 'a').length ≤ 250 := by
  exact ⟨by decide, by decide, by decide, by decide⟩

/-- C3 (amended): every non-marker element produced by the alphabetic
splitter either fits the effective budget or contains no space (an
unsplittable single word emitted whole); equivalently for the wrapper, every
element is a marker, within the language's `max_chars`, or space-free; and
every unit of the ideogrammatic buffer assembly fits the budget or is a
single tokenizer token. -/
theorem claim3_budget_amended :
    (∀ (maxc : Nat) (hard soft : List Char) (text : Str),
      ∀ u ∈ get_sentences_core maxc hard soft text,
        isMarker u = true ∨ u.length ≤ maxc ∨ ' ' ∉ u)
    ∧ (∀ (maxc : Nat) (toks : List Str),
        ∀ u ∈ join_ideogramms maxc [] toks, u.length ≤ maxc ∨ u ∈ toks)
    ∧ (∀ (tok : Str → List Str) (text lang : Str) (mc : Nat) (out : List Str),
        language_mapping_max_chars lang = some mc → lang ∉ IDEO_LANGS →
        get_sentences tok text lang = some out →
        ∀ u ∈ out, isMarker u = true ∨ u.length ≤ mc ∨ ' ' ∉ u) := by
  refine ⟨?_, ?_, ?_⟩
  · intro maxc hard soft text u hu
    exact wordStage_fits u hu
  · intro maxc toks u hu
    rcases join_ideogramms_mem maxc toks [] u hu with h | h | h
    · exact Or.inl h
    · exact Or.inr h
    · subst h
      exact Or.inl (by simp)
  · intro tok text lang mc out hreg hideo hout u hu
    unfold get_sentences at hout
    rw [hreg] at hout
    dsimp only at hout
    rw [if_neg hideo] at hout
    injection hout with h
    subst h
    rcases wordStage_fits u hu with h | h | h
    · exact Or.inl h
    · exact Or.inr (Or.inl (le_trans h (Nat.sub_le mc 4)))
    · exact Or.inr (Or.inr h)

/-- C3 amended, witnessed at a concrete run of the wrapper. -/
theorem claim3_budget_amended_witness :
    isMarker (str "Hello.") = true ∨ (str "Hello.").length ≤ 250
      ∨ ' ' ∉ str "Hello." :=
  claim3_budget_amended.2.2 (fun s => [s]) (str "Hello.") (str "eng") 250
    [str "Hello."] (by decide) (by decide) (by decide) (str "Hello.") (by decide)

/-- C4: `clock2words` on "Meeting at 14:30" with the modelled English clock
templates renders the half-past phrase with the *parsed* hour 14 ("half past
fourteen"), not hour 2 — contradicting the claim and the function's own
docstring example ("Meeting at half past two"): line 183 formats
`half_past` with `hour=n2w(h)` where `h` is the raw 24-hour value. -/
theorem claim4_clock_half_past_fourteen :
    clock2words engWordGen (str "Meeting at 14:30") (str "eng") true
        = str "Meeting at half past fourteen"
    ∧ engWordGen.cardinalNat 14 = str "fourteen"
    ∧ engWordGen.cardinalNat 2 = str "two" := by
  exact ⟨by decide, by decide, by decide⟩

set_option maxRecDepth 1000000 in
/-- C5 counterexample: a run of 30 digits is **not** returned unchanged —
the number regex matches at most 18 digits, so the first 18 are converted
(phoneme fallback shown) and the remaining 12 are left behind as digits. -/
theorem claim5_counterexample :
    set_formatted_number (fun _ => []) (List.replicate 30 '1') false
        MAX_SINGLE_VALUE
      = joinSpace (List.replicate 18 (str "one")) ++ List.replicate 12 '1'
    ∧ set_formatted_number (fun _ => []) (List.replicate 30 '1') false
        MAX_SINGLE_VALUE
      ≠ List.replicate 30 '1' := by
  exact ⟨by decide, by decide⟩

set_option maxRecDepth 1000000 in
/-- C5 (amended): a number that the formatter *matches* and whose magnitude
exceeds `max_single_value` is returned unchanged (a 19-digit value written
with comma grouping under the default bound; a plain number under a lowered
bound, as the repository's own overflow test passes `max_single_value=1000`)
— but a bare 30-digit run is not matched as one number: its first 18 digits
are matched and converted and the trailing 12 are left as digits. -/
theorem claim5_overflow_amended :
    set_formatted_number (fun _ => []) (str "999,999,999,999,999,999,9") false
        MAX_SINGLE_VALUE
      = str "999,999,999,999,999,999,9"
    ∧ set_formatted_number (fun _ => []) (str "It is 12345 now") false 1000
      = str "It is 12345 now"
    ∧ set_formatted_number (fun _ => []) (List.replicate 30 '1') false
        MAX_SINGLE_VALUE
      = joinSpace (List.replicate 18 (str "one")) ++ List.replicate 12 '1' := by
  exact ⟨by decide, by decide, by decide⟩

/-- C6: the Text Normalizer is not idempotent: on `"((x))"` the first pass
rewrites the outer parenthetical to quotes leaving a dangling parenthesis
pair, and the second pass rewrites again — the output is not a fixed
point, contradicting the spec's stability requirement for repeated
application. -/
theorem claim6_normalizer_not_idempotent :
    normalize_text (str "((x))") (str "eng") (str "en") (str "xtts")
        = str "\"(x\")"
    ∧ normalize_text (normalize_text (str "((x))") (str "eng") (str "en")
          (str "xtts")) (str "eng") (str "en") (str "xtts")
        = str "\"\"x\"\""
    ∧ normalize_text (normalize_text (str "((x))") (str "eng") (str "en")
          (str "xtts")) (str "eng") (str "en") (str "xtts")
        ≠ normalize_text (str "((x))") (str "eng") (str "en") (str "xtts") := by
  exact ⟨by decide, by decide, by decide⟩

/-- C7 counterexample: two consecutive identical `‡break‡` markers in the
chapter text survive segmentation as two adjacent elements — they are not
collapsed to a single one. -/
theorem claim7_counterexample :
    get_sentences (fun s => [s]) (str "a ‡break‡ ‡break‡ b") (str "eng")
      = some [str "a ", BRK, BRK, str " b"] := by decide

/-- C7 (amended): every marker occurrence survives the segmenter as a
standalone element, in order (the output's marker subsequence equals that of
the marker split of the input), and no non-marker element contains a marker
substring — markers are never split or merged with narrative text; but
consecutive identical markers already present in the text are each emitted
separately, not collapsed (collapsing applies only to the markup-generated
break/pause tuples deduplicated in `filter_chapter`). -/
theorem claim7_markers_amended (maxc : Nat) (hard soft : List Char) (text : Str) :
    (get_sentences_core maxc hard soft text).filter isMarker
        = (smlSplit text).filter isMarker
    ∧ ∀ u ∈ get_sentences_core maxc hard soft text,
        isMarker u = false → markerFree u := by
  have h1 := smlStage_MInv text
  have h2 := @hardStage_props maxc hard _ h1
  have h3 := @softStage_props maxc soft _ h2.1
  have h4 := @wordStage_props maxc _ h3.1
  constructor
  · show (wordStage maxc (softStage maxc soft (hardStage maxc hard
      (smlStage text)))).filter isMarker = _
    rw [h4.2, h3.2, h2.2, smlStage_filter]
  · intro u hu hfalse
    rcases h4.1 u hu with rfl | rfl | h
    · simp [isMarker] at hfalse
    · simp [isMarker] at hfalse
    · exact h

/-- C7 amended, witnessed at a concrete input. -/
theorem claim7_markers_amended_witness :
    (get_sentences_core 246 ['.'] [','] (str "a ‡break‡ b")).filter isMarker
        = (smlSplit (str "a ‡break‡ b")).filter isMarker
    ∧ markerFree (str "a ") := by
  constructor
  · exact (claim7_markers_amended 246 ['.'] [','] (str "a ‡break‡ b")).1
  · exact (claim7_markers_amended 246 ['.'] [','] (str "a ‡break‡ b")).2
      (str "a ") (by decide) (by decide)

/-- C8 counterexample: a segmentation result of zero sentences makes
`filter_chapter` return `None` — the same value its `except` handler
returns for processing failures, and not the distinct empty list used for
excluded or empty chapters. -/
theorem claim8_counterexample :
    filter_chapter_finalize [] = none
    ∧ filter_chapter_finalize [] ≠ some [] := by
  exact ⟨rfl, by decide⟩

/-- C8 (amended): when segmentation yields zero sentences the chapter filter
returns the failure signal `None`, indistinguishable from a stage failure;
the distinct non-error empty list is produced only by the excluded-type and
missing/empty-body paths; any non-empty sentence list is returned as-is. -/
theorem claim8_zero_sentences_amended :
    filter_chapter_finalize [] = none
    ∧ (∀ l : List Str, l ≠ [] → filter_chapter_finalize l = some l)
    ∧ filter_chapter docTocChapter (str "eng") (str "en") (str "xtts") none true
        = some [] := by
  refine ⟨rfl, ?_, by decide⟩
  intro l hl
  unfold filter_chapter_finalize
  rw [if_neg (by simpa using hl)]

/-- C8 amended, witnessed at a concrete sentence list. -/
theorem claim8_zero_sentences_amended_witness :
    filter_chapter_finalize [str "Hi."] = some [str "Hi."] :=
  claim8_zero_sentences_amended.2.1 [str "Hi."] (by decide)

/-- C9: a chapter whose body (or, when the body carries no semantic type,
its first `section`) resolves to an `epub:type` matching the excluded set
returns the empty sentence list — `some []`, not `None` and not an error. -/
theorem claim9_excluded_returns_empty (doc b : HNode) (lang l1 te : Str)
    (ds : Option (Str → Str)) (compat : Bool)
    (hb : findTag (str "body") doc = some b)
    (hex : excludedMatch (resolve_epub_type doc b) = true) :
    filter_chapter doc lang l1 te ds compat = some [] := by
  unfold filter_chapter
  rw [hb]
  dsimp only
  by_cases hge : (get_text_strip b).isEmpty = true
  · rw [if_pos hge]
  · rw [if_neg hge, if_pos hex]

/-- C9 witnessed on a toc-tagged chapter with text content. -/
theorem claim9_excluded_returns_empty_witness :
    filter_chapter docTocChapter (str "eng") (str "en") (str "xtts") none true
      = some [] :=
  claim9_excluded_returns_empty docTocChapter tocBody (str "eng") (str "en")
    (str "xtts") none true rfl (by decide)

/-- C10: a document without a `body` node, or whose body has no text
content, makes `filter_chapter` return the empty list (`some []`, the same
non-error empty signal as the excluded-type case, not `None`), before the
exclusion check or any text processing runs. -/
theorem claim10_missing_body_returns_empty (doc : HNode) (lang l1 te : Str)
    (ds : Option (Str → Str)) (compat : Bool)
    (h : ∀ b, findTag (str "body") doc = some b → get_text_strip b = []) :
    filter_chapter doc lang l1 te ds compat = some [] := by
  unfold filter_chapter
  rcases hb : findTag (str "body") doc with _ | b
  · rfl
  · have hbody := h b hb
    dsimp only
    rw [if_pos (by rw [hbody]; rfl)]

/-- C10 witnessed on a body-less document. -/
theorem claim10_missing_body_returns_empty_witness :
    filter_chapter docNoBodyNode (str "eng") (str "en") (str "xtts") none true
      = some [] :=
  claim10_missing_body_returns_empty docNoBodyNode (str "eng") (str "en")
    (str "xtts") none true
    (fun _ hb => Option.noConfusion
      ((rfl : findTag (str "body") docNoBodyNode = none).symm.trans hb))

end Ebook
